import Mathlib

/-!
# Verification of the `sieve` pager core

Shallow embedding of the Go source of the `sieve` in-memory log pager
(ANSI cell parser, JSON detection, viewer state, viewer stack, search
engine, filter pipeline, and the multi-file merge picker), together with
theorems settling the frozen specification claims.

Modelling conventions:
* Go strings are modelled as `List Char` where the code scans character
  by character, and as Lean `String` elsewhere.  All characters the code
  branches on (ESC, `[`, letters, digits, `;`) are ASCII, where Go's
  byte-level scans and rune-level scans agree.
* Go `int` is modelled as `Int`; indices proved non-negative are used
  via `Int.toNat`.  An out-of-range slice read (a runtime panic in Go)
  is modelled by `List.getD` with a default; every theorem that touches
  such a read carries the bounds under which the code performs it.
* `termbox.Attribute` is a `Nat` (`ColorDefault = 0`, `AttrBold = 512`,
  `AttrUnderline = 1024`, `AttrReverse = 2048`, as in termbox-go).
* Concurrency is collapsed: a background filter task is modelled by the
  final contents it writes before clearing `loading`; the mutex and the
  memo cache of expanded line counts (a pure memoization of
  `getExpandedLineCount`) are elided.
-/

namespace Sieve

/-- The ESC byte `0x1b` that introduces an ANSI escape sequence. -/
def escChar : Char := Char.ofNat 0x1b

/-- `isAsciiLetter c`: the byte-range test `('A' ≤ c ≤ 'Z') ∨ ('a' ≤ c ≤ 'z')`
used by `stripANSI` to find the terminator of an escape sequence. -/
def isAsciiLetter (c : Char) : Bool :=
  (65 ≤ c.toNat && c.toNat ≤ 90) || (97 ≤ c.toNat && c.toNat ≤ 122)

/-- Core loop of Go `stripANSI`.  The `Bool` flag is `true` while the scan
is inside an `ESC [` sequence looking for its terminating letter (the Go
code expresses this with an inner `for` loop over `j`); unterminated
sequences drop the rest of the line, exactly as `j` runs to `len(s)`. -/
def stripCore : Bool → List Char → List Char
  | _, [] => []
  | true, c :: cs => if isAsciiLetter c then stripCore false cs else stripCore true cs
  | false, '\x1b' :: '[' :: cs => stripCore true cs
  | false, c :: cs => c :: stripCore false cs

/-- Go `stripANSI` on a character list. -/
def stripANSI (l : List Char) : List Char := stripCore false l

/-- Go `stripANSI` on a `String`. -/
def stripANSIStr (s : String) : String := ⟨stripANSI s.data⟩

/-- Go `lineHasANSI`: byte scan for the ESC byte. -/
def lineHasANSI (s : String) : Bool := s.data.contains escChar

/-- An `ansiCell`: one visible character with its foreground and
background `termbox.Attribute` (modelled as `Nat`). -/
structure ansiCell where
  char : Char
  fg : Nat
  bg : Nat
  deriving Repr, DecidableEq

/-- `strings.Split seq ";"` on a character list. -/
def splitSemi : List Char → List (List Char)
  | [] => [[]]
  | c :: cs =>
    if c = ';' then [] :: splitSemi cs
    else
      match splitSemi cs with
      | [] => [[c]]
      | h :: t => (c :: h) :: t

/-- `strconv.Atoi` restricted to what `applyANSICodes` feeds it: an
optional sign followed by decimal digits; anything else is an error
(`none`).  (Go's 64-bit overflow error cannot fire on the short
parameter substrings of an escape sequence.) -/
def atoi? (l : List Char) : Option Int :=
  let digits : List Char → Option Nat := fun ds =>
    if ds = [] then none
    else ds.foldl (fun acc d => match acc with
      | none => none
      | some n => if d.isDigit then some (n * 10 + (d.toNat - 48)) else none) (some 0)
  match l with
  | '+' :: rest => (digits rest).map (Int.ofNat)
  | '-' :: rest => (digits rest).map (fun n => -(Int.ofNat n))
  | _ => (digits l).map (Int.ofNat)

/-- One step of the `switch` in Go `applyANSICodes`, for a numeric code
that does not need a `38;5;N` / `48;5;N` lookahead. -/
def applyOneCode (code : Int) (fg bg : Nat) : Nat × Nat :=
  if code = 0 then (0, 0)
  else if code = 1 then (fg.lor 512, bg)
  else if code = 4 then (fg.lor 1024, bg)
  else if code = 7 then (fg.lor 2048, bg)
  else if 30 ≤ code ∧ code ≤ 37 then (((code - 30 + 1).toNat).lor (fg.land 0xFF00), bg)
  else if code = 39 then (fg.land 0xFF00, bg)
  else if 40 ≤ code ∧ code ≤ 47 then (fg, (code - 40 + 1).toNat)
  else if code = 49 then (fg, 0)
  else if 90 ≤ code ∧ code ≤ 97 then (((code - 90 + 9).toNat).lor (fg.land 0xFF00), bg)
  else if 100 ≤ code ∧ code ≤ 107 then (fg, (code - 100 + 9).toNat)
  else (fg, bg)

/-- The `for i < len(parts)` loop of Go `applyANSICodes`: `38;5;N` and
`48;5;N` consume two extra parts (only when the next part is `"5"`);
unparsable parts are skipped.  The `fuel` argument only drives the
recursion; every iteration consumes at least one part, so fuel equal to
the number of parts is never exhausted. -/
def applyCodesLoop : Nat → List (List Char) → Nat → Nat → Nat × Nat
  | 0, _, fg, bg => (fg, bg)
  | _ + 1, [], fg, bg => (fg, bg)
  | fuel + 1, p :: rest, fg, bg =>
    match atoi? p with
    | none => applyCodesLoop fuel rest fg bg
    | some code =>
      if code = 38 then
        match rest with
        | p1 :: p2 :: rest' =>
          if p1 = ['5'] then
            match atoi? p2 with
            | some n => applyCodesLoop fuel rest' (((n + 1).toNat).lor (fg.land 0xFF00)) bg
            | none => applyCodesLoop fuel rest' fg bg
          else applyCodesLoop fuel rest fg bg
        | _ => applyCodesLoop fuel rest fg bg
      else if code = 48 then
        match rest with
        | p1 :: p2 :: rest' =>
          if p1 = ['5'] then
            match atoi? p2 with
            | some n => applyCodesLoop fuel rest' fg ((n + 1).toNat)
            | none => applyCodesLoop fuel rest' fg bg
          else applyCodesLoop fuel rest fg bg
        | _ => applyCodesLoop fuel rest fg bg
      else
        let r := applyOneCode code fg bg
        applyCodesLoop fuel rest r.1 r.2

/-- Go `applyANSICodes seq fg bg`. -/
def applyANSICodes (seq : List Char) (fg bg : Nat) : Nat × Nat :=
  if seq = [] ∨ seq = ['0'] then (0, 0)
  else applyCodesLoop (splitSemi seq).length (splitSemi seq) fg bg

/-- Core loop of Go `parseANSI` (the slow path).  `none` is the normal
scanning mode; `some acc` means the scan sits inside an `ESC [` sequence
whose parameter characters seen so far are `acc` (reversed), mirroring
the Go code's linear search for the terminating `'m'`.  If the input
ends before an `'m'` is found, the whole pending sequence is emitted as
literal cells with the current colors — exactly what the Go loop does by
falling through and re-scanning (no later `'m'` exists, so no escape can
succeed in the re-scan and the colors never change). -/
def parseCore : Option (List Char) → Nat → Nat → List Char → List ansiCell
  | none, _, _, [] => []
  | none, fg, bg, '\x1b' :: '[' :: cs => parseCore (some []) fg bg cs
  | none, fg, bg, c :: cs => ⟨c, fg, bg⟩ :: parseCore none fg bg cs
  | some acc, fg, bg, [] => ('\x1b' :: '[' :: acc.reverse).map (fun r => ⟨r, fg, bg⟩)
  | some acc, fg, bg, c :: cs =>
    if c = 'm' then
      let r := applyANSICodes acc.reverse fg bg
      parseCore none r.1 r.2 cs
    else parseCore (some (c :: acc)) fg bg cs

/-- Go `parseANSI` on a character list: fast path when no ESC byte is
present, slow path otherwise. -/
def parseANSI (l : List Char) : List ansiCell :=
  if l.contains escChar then parseCore none 0 0 l
  else l.map (fun r => ⟨r, 0, 0⟩)

/-- Go `parseANSI` on a `String`. -/
def parseANSIStr (s : String) : List ansiCell := parseANSI s.data

/-- The character projection of a cell list (`cells[i].char`). -/
def cellChars (cells : List ansiCell) : List Char := cells.map ansiCell.char

/-- The lines on which the ANSI round-trip can hold: every `ESC [`
sequence is terminated, and the first ASCII letter at or after its
parameter characters is `'m'` (an SGR sequence).  On other lines
`stripANSI` (any-letter terminator, unterminated tail dropped) and
`parseANSI` (`'m'` terminator, unterminated sequence kept literally)
treat the sequence differently. -/
def sgrOnly : Bool → List Char → Bool
  | false, [] => true
  | true, [] => false
  | true, c :: cs => if isAsciiLetter c then c == 'm' && sgrOnly false cs else sgrOnly true cs
  | false, '\x1b' :: '[' :: cs => sgrOnly true cs
  | false, _ :: cs => sgrOnly false cs

/-! ## JSON detection (`findJSONStart`, `findJSONEnd`, `isJSON`) -/

/-- Index-tracking scan of Go `findJSONStart`: first `{` or `[`, else `-1`. -/
def findJSONStartAux : Nat → List Char → Int
  | _, [] => -1
  | i, c :: cs => if c = '{' ∨ c = '[' then (i : Int) else findJSONStartAux (i + 1) cs

/-- Go `findJSONStart`. -/
def findJSONStart (l : List Char) : Int := findJSONStartAux 0 l

/-- The depth/string/escape scan of Go `findJSONEnd`, starting at absolute
index `i` with the remaining characters. -/
def findJSONEndLoop (openC closeC : Char) : Nat → Int → Bool → Bool → List Char → Int
  | _, _, _, _, [] => -1
  | i, depth, inString, escaped, c :: cs =>
    if escaped then findJSONEndLoop openC closeC (i + 1) depth inString false cs
    else if c = '\\' ∧ inString then findJSONEndLoop openC closeC (i + 1) depth inString true cs
    else if c = '"' then findJSONEndLoop openC closeC (i + 1) depth (!inString) escaped cs
    else if inString then findJSONEndLoop openC closeC (i + 1) depth inString escaped cs
    else if c = openC then findJSONEndLoop openC closeC (i + 1) (depth + 1) inString escaped cs
    else if c = closeC then
      if depth - 1 = 0 then (i : Int)
      else findJSONEndLoop openC closeC (i + 1) (depth - 1) inString escaped cs
    else findJSONEndLoop openC closeC (i + 1) depth inString escaped cs

/-- Go `findJSONEnd line jsonStart`. -/
def findJSONEnd (l : List Char) (jsonStart : Int) : Int :=
  if jsonStart < 0 ∨ (l.length : Int) ≤ jsonStart then -1
  else
    let openC := l.getD jsonStart.toNat ' '
    if openC = '{' then findJSONEndLoop '{' '}' jsonStart.toNat 0 false false (l.drop jsonStart.toNat)
    else if openC = '[' then findJSONEndLoop '[' ']' jsonStart.toNat 0 false false (l.drop jsonStart.toNat)
    else -1

/-- Go `isJSON line`. -/
def isJSON (s : String) : Bool :=
  let st := findJSONStart s.data
  if st = -1 then false else findJSONEnd s.data st ≠ -1

/-! ## Viewer state

The `Viewer` struct, with the mutex and the expanded-row memo cache
elided (the cache only memoizes `getExpandedLineCount`, which is
modelled as the recomputed value). -/

structure Viewer where
  lines : List String
  hasANSI : List Bool
  originIndices : List Int
  loading : Bool
  filename : String
  wordWrap : Bool
  jsonPretty : Bool
  stickyLeft : Int
  topLine : Int
  topLineOffset : Int
  leftCol : Int
  width : Int
  height : Int
  follow : Bool
  deriving Repr, DecidableEq, Inhabited

/-- Go `Viewer.LineCount`. -/
def Viewer.LineCount (v : Viewer) : Nat := v.lines.length

/-- Go `Viewer.GetLine`: empty string when `idx` is out of bounds. -/
def Viewer.GetLine (v : Viewer) (idx : Int) : String :=
  if idx < 0 ∨ (v.lines.length : Int) ≤ idx then ""
  else v.lines.getD idx.toNat ""

/-- The `'w'` key handler in `Viewer.run`: toggle `wordWrap`, reset
`leftCol` and `topLineOffset`. -/
def Viewer.toggleWordWrap (v : Viewer) : Viewer :=
  { v with wordWrap := !v.wordWrap, leftCol := 0, topLineOffset := 0 }

/-- The `'f'` key handler in `Viewer.run`: toggle `jsonPretty`, reset
`topLineOffset`. -/
def Viewer.toggleJsonPretty (v : Viewer) : Viewer :=
  { v with jsonPretty := !v.jsonPretty, topLineOffset := 0 }

/-- The body of Go `App.HandleGotoLine` after a line number has been
read and parsed successfully (`lineNum` is the 1-based user input). -/
def HandleGotoLine (v : Viewer) (lineNum : Int) : Viewer :=
  let lineIdx := lineNum - 1
  let lineIdx := if lineIdx < 0 then 0 else lineIdx
  let maxLine : Int := (v.LineCount : Int) - 1
  let lineIdx := if lineIdx > maxLine then maxLine else lineIdx
  { v with topLine := lineIdx }

/-- Go `NewViewerFromLines`: a completed viewer with computed ANSI flags
and every display field at its zero value. -/
def NewViewerFromLines (lines : List String) : Viewer :=
  { lines := lines, hasANSI := lines.map lineHasANSI, originIndices := [],
    loading := false, filename := "", wordWrap := false, jsonPretty := false,
    stickyLeft := 0, topLine := 0, topLineOffset := 0, leftCol := 0,
    width := 0, height := 0, follow := false }

/-! ## String helpers shared by search and filtering -/

/-- Go `strings.Contains` on character lists (substring containment). -/
def containsSub : List Char → List Char → Bool
  | [], sub => sub.isEmpty
  | c :: cs, sub => sub.isPrefixOf (c :: cs) || containsSub cs sub

/-- Go `strings.Contains` on strings. -/
def strContains (s sub : String) : Bool := containsSub s.data sub.data

/-- Go `strings.ToLower` (character-wise lowering). -/
def strToLower (s : String) : String := ⟨s.data.map Char.toLower⟩

/-! ## Search engine (`SearchState`)

Go's `regexp` package is external: a compile function
`String → Except String (String → Bool)` stands for `regexp.Compile`,
returning either an error message or the compiled pattern's
`MatchString`.  The fallback `regexp.MustCompile(regexp.QuoteMeta(q))`
built after a failed compile matches exactly the lines containing `q`
literally, and is modelled as that substring test. -/

/-- A regex compiler: Go `regexp.Compile` yielding `MatchString`. -/
def RegexCompiler : Type := String → Except String (String → Bool)

structure SearchState where
  query : String
  regex : Option (String → Bool)
  isRegex : Bool
  ignoreCase : Bool
  /-- Go field `matches` (`matches` is reserved in Lean). -/
  matchList : List Nat
  current : Int
  backward : Bool

/-- Go `SearchState.Clear`. -/
def SearchState.Clear : SearchState :=
  { query := "", regex := none, isRegex := false, ignoreCase := false,
    matchList := [], current := -1, backward := false }

/-- The `getPlain` closure in `SearchState.Search`: use the raw line when
the ANSI cache says it holds no escape bytes, strip otherwise. -/
def getPlain (hasANSI : List Bool) (i : Nat) (line : String) : String :=
  if i < hasANSI.length ∧ hasANSI.getD i false = false then line
  else stripANSIStr line

/-- The per-line match predicate `SearchState.Search` uses, by branch:
literal, case-insensitive literal, or regex (with `(?i)` prefix when
case-insensitive, falling back to a literal match of the raw query when
the pattern does not compile). -/
def searchPred (compile : RegexCompiler) (hasANSI : List Bool) (query : String)
    (isRegex ignoreCase : Bool) : Nat → String → Bool :=
  if ¬isRegex ∧ ¬ignoreCase then
    fun i line => strContains (getPlain hasANSI i line) query
  else if ¬isRegex ∧ ignoreCase then
    fun i line => strContains (strToLower (getPlain hasANSI i line)) (strToLower query)
  else
    let pattern := if ignoreCase then "(?i)" ++ query else query
    let re := match compile pattern with
      | .ok r => r
      | .error _ => fun s => strContains s query
    fun i line => re (getPlain hasANSI i line)

/-- The value stored in the `regex` field: set only by the regex branch. -/
def searchRegexField (compile : RegexCompiler) (query : String)
    (isRegex ignoreCase : Bool) : Option (String → Bool) :=
  if isRegex then
    let pattern := if ignoreCase then "(?i)" ++ query else query
    some (match compile pattern with
      | .ok r => r
      | .error _ => fun s => strContains s query)
  else none

/-- The `for i, line := range lines` collection loop of
`SearchState.Search`, appending each matching index. -/
def collectMatches (p : Nat → String → Bool) : Nat → List String → List Nat
  | _, [] => []
  | i, line :: rest =>
    if p i line then i :: collectMatches p (i + 1) rest
    else collectMatches p (i + 1) rest

/-- The forward selection loop: first match at or after `startLine`,
returned with its position in the match list. -/
def selectFwd (startLine : Int) : List Nat → Nat → Option (Nat × Nat)
  | [], _ => none
  | v :: rest, i =>
    if startLine ≤ (v : Int) then some (i, v) else selectFwd startLine rest (i + 1)

/-- The backward selection loop (`for i := len(matches)-1; i >= 0; i--`):
last match at or before `startLine`, with its position. -/
def selectBwd (startLine : Int) : List Nat → Nat → Option (Nat × Nat)
  | [], _ => none
  | v :: rest, i =>
    match selectBwd startLine rest (i + 1) with
    | some r => some r
    | none => if (v : Int) ≤ startLine then some (i, v) else none

/-- Go `SearchState.Search`: returns the new search state and the
selected line index (`-1` when nothing is selected). -/
def SearchState.Search (compile : RegexCompiler) (lines : List String)
    (hasANSI : List Bool) (query : String) (startLine : Int)
    (backward isRegex ignoreCase : Bool) : SearchState × Int :=
  let p := searchPred compile hasANSI query isRegex ignoreCase
  let ms := collectMatches p 0 lines
  let base : SearchState :=
    { query := query, regex := searchRegexField compile query isRegex ignoreCase,
      isRegex := isRegex, ignoreCase := ignoreCase, matchList := ms,
      current := -1, backward := backward }
  if ms = [] then (base, -1)
  else if backward then
    match selectBwd startLine ms 0 with
    | some iv => ({ base with current := (iv.1 : Int) }, (iv.2 : Int))
    | none => ({ base with current := 0 }, -1)
  else
    match selectFwd startLine ms 0 with
    | some iv => ({ base with current := (iv.1 : Int) }, (iv.2 : Int))
    | none => ({ base with current := (ms.length : Int) - 1 }, -1)

/-- A stand-in external regex compiler that rejects every pattern (used
to exercise the literal fallback paths on concrete inputs). -/
def rejectAllRegex : RegexCompiler := fun _ => Except.error "external"

/-! ## Filter pipeline (`App.HandleFilter`)

The parallel background task is collapsed to the final contents it
produces: the chunk results are deterministic and the merge loop
concatenates them in ascending chunk order regardless of worker
completion order. -/

/-- One worker's loop in `HandleFilter` over its index range: collect
the lines whose match result equals `keep`, with their ANSI flags and
parent indices (`has := i < len(hasANSICache) && hasANSICache[i]`). -/
def filterChunk (m : String → Bool → Bool) (keep : Bool)
    (lines : List String) (hasANSI : List Bool) :
    List Nat → List String × List Bool × List Int
  | [] => ([], [], [])
  | i :: rest =>
    let has := hasANSI.getD i false
    let r := filterChunk m keep lines hasANSI rest
    if m (lines.getD i "") has = keep then
      ((lines.getD i "") :: r.1, has :: r.2.1, (i : Int) :: r.2.2)
    else r

/-- The index range of worker `w`:
`[w*chunkSize, min(w*chunkSize + chunkSize, total))`; empty when
`start ≥ total` (then Go starts no worker and that result slot stays
empty). -/
def chunkIdxs (total chunkSize w : Nat) : List Nat :=
  List.range' (w * chunkSize) (min (w * chunkSize + chunkSize) total - w * chunkSize)

/-- The merge loop of `HandleFilter`'s background task: concatenate the
chunk results for workers `0, …, w-1` in ascending chunk order. -/
def mergeChunks (m : String → Bool → Bool) (keep : Bool)
    (lines : List String) (hasANSI : List Bool) (total chunkSize : Nat) :
    Nat → List String × List Bool × List Int
  | 0 => ([], [], [])
  | w + 1 =>
    let acc := mergeChunks m keep lines hasANSI total chunkSize w
    let r := filterChunk m keep lines hasANSI (chunkIdxs total chunkSize w)
    (acc.1 ++ r.1, acc.2.1 ++ r.2.1, acc.2.2 ++ r.2.2)

/-- The completed background task of `HandleFilter`: 8 workers (1 when
the snapshot has fewer than 8 lines), ceiling-divided chunks, merged in
chunk order; returns the new viewer's lines, ANSI flags and origin
indices. -/
def filterRun (m : String → Bool → Bool) (keep : Bool)
    (lines : List String) (hasANSI : List Bool) :
    List String × List Bool × List Int :=
  let total := lines.length
  let numWorkers := if total < 8 then 1 else 8
  let chunkSize := (total + numWorkers - 1) / numWorkers
  mergeChunks m keep lines hasANSI total chunkSize numWorkers

/-- The cursor-seeding fold of `HandleFilter`: the new viewer's
`topLine` is the position of the first retained line whose origin index
is at least the parent's recorded `topLine`, or 0 when none exists. -/
def seedTopLine (origins : List Int) (currentTopLine : Int) : Int :=
  match origins.findIdx? (fun o => currentTopLine ≤ o) with
  | some k => (k : Int)
  | none => 0

/-- The matcher compiled at the top of `HandleFilter` (and
`HandleFilterAppend`) from the prompt's query and flags; an invalid
regex is an error. -/
def buildMatcher (compile : RegexCompiler) (query : String)
    (isRegex ignoreCase : Bool) : Except String (String → Bool → Bool) :=
  if isRegex then
    match compile (if ignoreCase then "(?i)" ++ query else query) with
    | .error e => .error e
    | .ok re => .ok (fun line has => if has then re (stripANSIStr line) else re line)
  else if ignoreCase then
    .ok (fun line has =>
      if has then strContains (strToLower (stripANSIStr line)) (strToLower query)
      else strContains (strToLower line) (strToLower query))
  else
    .ok (fun line has =>
      if has then strContains (stripANSIStr line) query
      else strContains line query)

/-- The literal (case-sensitive) matcher `HandleFilter` compiles when
both prompt toggles are off. -/
def literalMatcher (query : String) : String → Bool → Bool :=
  fun line has =>
    if has then strContains (stripANSIStr line) query
    else strContains line query

/-! ## Application state and the viewer stack -/

/-- `App` (history, visual-mode and timestamp fields elided: the claims
under verification do not touch them). -/
structure App where
  stack : List Viewer
  search : SearchState
  statusMessage : String

/-- A freshly started application: root viewer on the stack, empty
search state (as built by `NewApp`). -/
def demoApp (lines : List String) : App :=
  { stack := [NewViewerFromLines lines], search := SearchState.Clear,
    statusMessage := "" }

/-- A one-line viewer with word wrap on at width 2 (for concrete
expanded-row checks). -/
def wrapDemoViewer : Viewer :=
  { NewViewerFromLines ["abcde"] with wordWrap := true, width := 2 }

/-- A one-line viewer with JSON pretty-print on whose line is not JSON. -/
def jsonDemoViewer : Viewer :=
  { NewViewerFromLines ["plain text"] with jsonPretty := true, width := 10 }

/-- Go `ViewerStack.Current`: `viewers[len(viewers)-1]`. -/
def stackCurrent (vs : List Viewer) : Viewer := vs.getLastD default

/-- Go `ViewerStack.Pop`: removes the top viewer unless only one
remains; returns the new stack and the changed flag. -/
def stackPop (vs : List Viewer) : List Viewer × Bool :=
  if vs.length ≤ 1 then (vs, false) else (vs.dropLast, true)

/-- Go `ViewerStack.Reset`: truncates to the root unless only one
viewer remains; returns the new stack and the changed flag. -/
def stackReset (vs : List Viewer) : List Viewer × Bool :=
  if vs.length ≤ 1 then (vs, false) else (vs.take 1, true)

/-- Apply `f` to the top (last) viewer of the stack. -/
def updateLast (f : Viewer → Viewer) : List Viewer → List Viewer
  | [] => []
  | [v] => [f v]
  | v :: rest => v :: updateLast f rest

/-- Go `App.HandleFilter` after the prompt returns
`(query, isRegex, ignoreCase, ok)`, with the background task collapsed
to its completed result: on an invalid regex no viewer is pushed and a
status message is shown; otherwise the filtered viewer (final contents,
`loading` already cleared) is pushed and the search state cleared. -/
def HandleFilter (compile : RegexCompiler) (a : App) (keep : Bool)
    (query : String) (isRegex ignoreCase ok : Bool) : App :=
  let current := stackCurrent a.stack
  let currentTopLine := current.topLine
  if ok ∧ query ≠ "" then
    match buildMatcher compile query isRegex ignoreCase with
    | .error e => { a with statusMessage := "Invalid regex: " ++ e }
    | .ok m =>
      let r := filterRun m keep current.lines current.hasANSI
      let newViewer : Viewer :=
        { lines := r.1, hasANSI := r.2.1, originIndices := r.2.2,
          loading := false, filename := current.filename,
          wordWrap := false, jsonPretty := false, stickyLeft := 0,
          topLine := seedTopLine r.2.2 currentTopLine, topLineOffset := 0,
          leftCol := 0, width := 0, height := 0, follow := false }
      { a with stack := a.stack ++ [newViewer], search := SearchState.Clear }
  else a

/-! ## Stack navigation (`App.HandleStackNav`) -/

/-- The interval-halving loop of Go `sort.Search` (`i, j := 0, n`; the
interval shrinks every iteration, so fuel `n + 1` is never exhausted). -/
def sortSearchAux (f : Nat → Bool) : Nat → Nat → Nat → Nat
  | 0, i, _ => i
  | fuel + 1, i, j =>
    if i < j then
      let h := (i + j) / 2
      if f h then sortSearchAux f fuel i h
      else sortSearchAux f fuel (h + 1) j
    else i

/-- Go `sort.Search n f`. -/
def sortSearch (n : Nat) (f : Nat → Bool) : Nat := sortSearchAux f (n + 1) 0 n

/-- The reset-tracing loop of `HandleStackNav`: map the target through
each level's origin indices from the top of the stack down to level 1
(applied only when the target is in range of that level's indices). -/
def traceTarget (vs : List Viewer) (t : Int) : Int :=
  ((vs.drop 1).reverse).foldl
    (fun target v =>
      if 0 < v.originIndices.length ∧ target < (v.originIndices.length : Int) then
        v.originIndices.getD target.toNat 0
      else target) t

/-- The initial target computation of `HandleStackNav`:
`origin[top_line]` when the current viewer's origin indices are
non-empty and `top_line` is below their length, and `top_line` itself
otherwise. -/
def popTarget (current : Viewer) : Int :=
  if 0 < current.originIndices.length ∧
      current.topLine < (current.originIndices.length : Int) then
    current.originIndices.getD current.topLine.toNat 0
  else current.topLine

/-- The target line of `HandleStackNav`: the initial target, traced
through all stack levels when resetting a stack of more than one
viewer. -/
def navTarget (a : App) (reset : Bool) : Int :=
  if reset ∧ 1 < a.stack.length then
    traceTarget a.stack (popTarget (stackCurrent a.stack))
  else popTarget (stackCurrent a.stack)

/-- The repositioning `HandleStackNav` applies to the destination
viewer: zero the row offset, then binary-search the origin indices for
the target (falling back to the last index), or clamp the target by the
line count when there are no origin indices. -/
def navReposition (targetLine : Int) (nc0 : Viewer) : Viewer :=
  let nc := { nc0 with topLineOffset := 0 }
  if 0 < nc.originIndices.length then
    let idx := sortSearch nc.originIndices.length
      (fun i => decide (targetLine ≤ nc.originIndices.getD i 0))
    if idx < nc.originIndices.length then { nc with topLine := (idx : Int) }
    else { nc with topLine := (nc.originIndices.length : Int) - 1 }
  else
    if (nc.LineCount : Int) ≤ targetLine then
      { nc with topLine := (nc.LineCount : Int) - 1 }
    else { nc with topLine := targetLine }

/-- Go `App.HandleStackNav` (`reset = true` for `=`, `false` for `U` /
`Ctrl+U`). -/
def HandleStackNav (a : App) (reset : Bool) : App :=
  let targetLine := navTarget a reset
  let pr := if reset then stackReset a.stack else stackPop a.stack
  if pr.2 then
    { a with
      stack := updateLast (navReposition targetLine) pr.1,
      search := SearchState.Clear }
  else { a with search := SearchState.Clear }

/-- A two-viewer stack for concrete stack-navigation checks: the root
has six lines and ascending origin indices `[1, 3, 5]`, the child maps
its single line back to root index 4. -/
def navDemoRoot : Viewer :=
  { NewViewerFromLines ["a", "b", "c", "d", "e", "f"] with
      originIndices := [1, 3, 5] }

/-- The child viewer of the stack-navigation demo. -/
def navDemoChild : Viewer :=
  { NewViewerFromLines ["x"] with originIndices := [4], topLine := 0 }

/-- The stack-navigation demo application. -/
def navDemoApp : App :=
  { stack := [navDemoRoot, navDemoChild], search := SearchState.Clear,
    statusMessage := "" }

/-! ## Expanded row count (`Viewer.getExpandedLineCount`)

`formatJSON` pretty-prints through Go's `encoding/json.Indent`, an
external library collaborator; the embedding is parametrized by the
expansion function `fmtJSON`.  The memo cache is a pure memoization of
this computation and is elided. -/

def Viewer.getExpandedLineCount (fmtJSON : String → List String)
    (v : Viewer) (lineIdx : Int) : Nat :=
  if lineIdx < 0 ∨ (v.LineCount : Int) ≤ lineIdx then 1
  else if v.width ≤ 0 then 1
  else
    let line := v.GetLine lineIdx
    let ls := if v.jsonPretty ∧ isJSON line then fmtJSON line else [line]
    let totalRows :=
      if ¬ v.wordWrap then ls.length
      else ls.foldl (fun acc l =>
        let cells := parseANSIStr l
        if cells.length = 0 then acc + 1
        else acc + (cells.length + v.width.toNat - 1) / v.width.toNat) 0
    if totalRows = 0 then 1 else totalRows

/-- The physical lines of a logical line (JSON expansion when JSON mode
is on and the line is JSON, else the line itself), as computed both by
`getExpandedLineCount` and the draw functions. -/
def physicalLines (fmtJSON : String → List String) (jsonPretty : Bool)
    (line : String) : List String :=
  if jsonPretty ∧ isJSON line then fmtJSON line else [line]

/-- The rows one physical line contributes in wrap mode:
`ceil(len(parseANSI(l)) / width)`, with an empty line contributing 1. -/
def wrapRows (width : Int) (l : String) : Nat :=
  if (parseANSIStr l).length = 0 then 1
  else ((parseANSIStr l).length + width.toNat - 1) / width.toNat

/-! ## Multi-file merge (`NewViewerFromMultipleFiles`) -/

/-- A `fileStream` at a step of the merge loop: the buffered line, its
parsed timestamp (`currTime` meaningful only when `hasTime`; time
points modelled as `Int`), and the exhausted flag.  The scanner, file
handle and prefix do not affect the pick. -/
structure fileStream where
  currLine : String
  currTime : Int
  hasTime : Bool
  exhausted : Bool
  deriving Repr, DecidableEq

/-- The `for _, s := range streams` pick loop of the merge: carry the
best stream (with its index) so far. -/
def pickAux : Option (Nat × fileStream) → Nat → List fileStream →
    Option (Nat × fileStream)
  | picked, _, [] => picked
  | picked, i, s :: rest =>
    if s.exhausted then pickAux picked (i + 1) rest
    else
      match picked with
      | none => pickAux (some (i, s)) (i + 1) rest
      | some (pi, p) =>
        if ¬s.hasTime ∧ p.hasTime then pickAux (some (i, s)) (i + 1) rest
        else if s.hasTime ∧ ¬p.hasTime then pickAux (some (pi, p)) (i + 1) rest
        else if s.hasTime ∧ p.hasTime then
          if s.currTime < p.currTime then pickAux (some (i, s)) (i + 1) rest
          else pickAux (some (pi, p)) (i + 1) rest
        else pickAux (some (pi, p)) (i + 1) rest

/-- The strict preference between streams under which the pick loop
replaces its current candidate: a timeless line beats a timed one, and
among timed lines a strictly earlier timestamp wins (the exact
replacement tests of the loop). -/
def beats (s p : fileStream) : Prop :=
  (¬s.hasTime ∧ p.hasTime) ∨ (s.hasTime ∧ p.hasTime ∧ s.currTime < p.currTime)

instance (s p : fileStream) : Decidable (beats s p) := by
  unfold beats; infer_instance

/-- The stream selected by one step of the k-way merge loop. -/
def pickStream (streams : List fileStream) : Option (Nat × fileStream) :=
  pickAux none 0 streams

/-- The line emitted by one step of the merge loop
(`batch = append(batch, picked.currLine)`), `none` when all streams are
exhausted and the loop breaks. -/
def mergeEmit (streams : List fileStream) : Option String :=
  (pickStream streams).map (fun r => r.2.currLine)

end Sieve

namespace Sieve

/-! ## Lemmas about the search loops -/

theorem collectMatches_eq (p : Nat → String → Bool) :
    ∀ (lines : List String) (i0 : Nat),
      collectMatches p i0 lines =
        (List.range' i0 lines.length).filter (fun j => p j (lines.getD (j - i0) ""))
  | [], _ => rfl
  | a :: rest, i0 => by
    have ih := collectMatches_eq p rest (i0 + 1)
    have hcongr :
        (List.range' (i0 + 1) rest.length).filter
            (fun j => p j ((a :: rest).getD (j - i0) "")) =
          (List.range' (i0 + 1) rest.length).filter
            (fun j => p j (rest.getD (j - (i0 + 1)) "")) := by
      apply List.filter_congr
      intro j hj
      have hge : i0 + 1 ≤ j := (List.mem_range'_1.mp hj).1
      have hstep : j - i0 = (j - (i0 + 1)) + 1 := by omega
      rw [hstep, List.getD_cons_succ]
    simp only [collectMatches, List.length_cons, List.range'_succ, List.filter_cons,
      Nat.sub_self, List.getD_cons_zero]
    by_cases hp : p i0 a
    · simp only [hp, if_true, ih, hcongr]
    · simp only [hp, if_false, Bool.false_eq_true, ih, hcongr]

theorem collectMatches_pairwise (p : Nat → String → Bool) (lines : List String) (i0 : Nat) :
    (collectMatches p i0 lines).Pairwise (· < ·) := by
  rw [collectMatches_eq]
  exact (List.pairwise_lt_range' i0 lines.length 1).filter _

theorem collectMatches_mem (p : Nat → String → Bool) (lines : List String) (j : Nat) :
    j ∈ collectMatches p 0 lines ↔ j < lines.length ∧ p j (lines.getD j "") = true := by
  rw [collectMatches_eq, List.mem_filter, List.mem_range'_1]
  constructor
  · rintro ⟨⟨-, hlt⟩, hp⟩
    exact ⟨by omega, by simpa using hp⟩
  · rintro ⟨hlt, hp⟩
    exact ⟨⟨Nat.zero_le _, by omega⟩, by simpa using hp⟩

theorem selectFwd_none (startLine : Int) :
    ∀ (ms : List Nat) (i0 : Nat),
      selectFwd startLine ms i0 = none ↔ ∀ v ∈ ms, (v : Int) < startLine
  | [], _ => by simp [selectFwd]
  | m :: rest, i0 => by
    by_cases h : startLine ≤ (m : Int)
    · simp only [selectFwd, if_pos h]
      constructor
      · intro hc; exact absurd hc (by simp)
      · intro hall; exact absurd (hall m (List.mem_cons_self m rest)) (by omega)
    · simp only [selectFwd, if_neg h, selectFwd_none startLine rest (i0 + 1)]
      constructor
      · intro hall v hv
        rcases List.mem_cons.mp hv with rfl | hv'
        · omega
        · exact hall v hv'
      · intro hall v hv; exact hall v (List.mem_cons_of_mem _ hv)

theorem selectFwd_some (startLine : Int) :
    ∀ (ms : List Nat) (i0 i v : Nat), ms.Pairwise (· ≤ ·) →
      selectFwd startLine ms i0 = some (i, v) →
      i0 ≤ i ∧ i - i0 < ms.length ∧ ms.getD (i - i0) 0 = v ∧ startLine ≤ (v : Int) ∧
        v ∈ ms ∧ ∀ w ∈ ms, startLine ≤ (w : Int) → v ≤ w
  | [], _, _, _, _, h => by simp [selectFwd] at h
  | m :: rest, i0, i, v, hpw, h => by
    rcases List.pairwise_cons.mp hpw with ⟨hhead, htail⟩
    by_cases hc : startLine ≤ (m : Int)
    · simp only [selectFwd, if_pos hc, Option.some.injEq, Prod.mk.injEq] at h
      obtain ⟨rfl, rfl⟩ := h
      refine ⟨le_refl _, by simp, by simp, hc, List.mem_cons_self _ _, ?_⟩
      intro w hw hsw
      rcases List.mem_cons.mp hw with rfl | hw'
      · exact le_refl _
      · exact hhead w hw'
    · simp only [selectFwd, if_neg hc] at h
      obtain ⟨h1, h2, h3, h4, h5, h6⟩ := selectFwd_some startLine rest (i0 + 1) i v htail h
      have hstep : i - i0 = (i - (i0 + 1)) + 1 := by omega
      refine ⟨by omega, by simp; omega, ?_, h4, List.mem_cons_of_mem _ h5, ?_⟩
      · rw [hstep, List.getD_cons_succ]; exact h3
      · intro w hw hsw
        rcases List.mem_cons.mp hw with rfl | hw'
        · exact absurd hsw hc
        · exact h6 w hw' hsw

theorem selectBwd_none (startLine : Int) :
    ∀ (ms : List Nat) (i0 : Nat),
      selectBwd startLine ms i0 = none ↔ ∀ v ∈ ms, startLine < (v : Int)
  | [], _ => by simp [selectBwd]
  | m :: rest, i0 => by
    simp only [selectBwd]
    rcases hrec : selectBwd startLine rest (i0 + 1) with - | r
    · by_cases h : (m : Int) ≤ startLine
      · simp only [if_pos h]
        constructor
        · intro hc; exact absurd hc (by simp)
        · intro hall; exact absurd (hall m (List.mem_cons_self m rest)) (by omega)
      · simp only [if_neg h]
        constructor
        · intro _ v hv
          rcases List.mem_cons.mp hv with rfl | hv'
          · omega
          · exact ((selectBwd_none startLine rest (i0 + 1)).mp hrec) v hv'
        · intro _; trivial
    · constructor
      · intro hc; exact absurd hc (by simp)
      · intro hall
        have : ∀ v ∈ rest, startLine < (v : Int) := fun v hv =>
          hall v (List.mem_cons_of_mem _ hv)
        rw [(selectBwd_none startLine rest (i0 + 1)).mpr this] at hrec
        exact absurd hrec (by simp)

theorem selectBwd_some (startLine : Int) :
    ∀ (ms : List Nat) (i0 i v : Nat), ms.Pairwise (· ≤ ·) →
      selectBwd startLine ms i0 = some (i, v) →
      i0 ≤ i ∧ i - i0 < ms.length ∧ ms.getD (i - i0) 0 = v ∧ (v : Int) ≤ startLine ∧
        v ∈ ms ∧ ∀ w ∈ ms, (w : Int) ≤ startLine → w ≤ v
  | [], _, _, _, _, h => by simp [selectBwd] at h
  | m :: rest, i0, i, v, hpw, h => by
    rcases List.pairwise_cons.mp hpw with ⟨hhead, htail⟩
    simp only [selectBwd] at h
    rcases hrec : selectBwd startLine rest (i0 + 1) with - | r
    · rw [hrec] at h
      by_cases hc : (m : Int) ≤ startLine
      · simp only [if_pos hc, Option.some.injEq, Prod.mk.injEq] at h
        obtain ⟨rfl, rfl⟩ := h
        refine ⟨le_refl _, by simp, by simp, hc, List.mem_cons_self _ _, ?_⟩
        intro w hw hsw
        rcases List.mem_cons.mp hw with rfl | hw'
        · exact le_refl _
        · exact absurd hsw (by
            have := ((selectBwd_none startLine rest (i0 + 1)).mp hrec) w hw'
            omega)
      · simp [if_neg hc] at h
    · rw [hrec] at h
      obtain rfl : r = (i, v) := by simpa using h
      obtain ⟨h1, h2, h3, h4, h5, h6⟩ := selectBwd_some startLine rest (i0 + 1) i v htail hrec
      have hstep : i - i0 = (i - (i0 + 1)) + 1 := by omega
      refine ⟨by omega, by simp; omega, ?_, h4, List.mem_cons_of_mem _ h5, ?_⟩
      · rw [hstep, List.getD_cons_succ]; exact h3
      · intro w hw hsw
        rcases List.mem_cons.mp hw with rfl | hw'
        · exact hhead v h5
        · exact h6 w hw' hsw

/-! ## Lemmas about the ANSI parser and stripper -/

theorem stripCore_of_no_esc :
    ∀ l : List Char, escChar ∉ l → stripCore false l = l
  | [], _ => rfl
  | c :: cs, h => by
    have hc : c ≠ '\x1b' := by
      intro hq
      refine h ?_
      rw [show escChar = '\x1b' from by decide, hq]
      exact List.mem_cons_self _ _
    have ih := stripCore_of_no_esc cs (fun hm => h (List.mem_cons_of_mem _ hm))
    rcases cs with - | ⟨c2, rest⟩
    · simp [stripCore]
    · simp [stripCore, hc, ih]

theorem parseCore_stripCore_agree :
    ∀ (n : Nat) (l : List Char), l.length ≤ n →
      (sgrOnly false l = true →
        ∀ fg bg, cellChars (parseCore none fg bg l) = stripCore false l) ∧
      (sgrOnly true l = true →
        ∀ fg bg acc, cellChars (parseCore (some acc) fg bg l) = stripCore true l) := by
  intro n
  induction n with
  | zero =>
    intro l hl
    obtain rfl : l = [] := List.length_eq_zero.mp (Nat.le_zero.mp hl)
    exact ⟨fun _ _ _ => rfl, fun hs => by simp [sgrOnly] at hs⟩
  | succ n ih =>
    intro l hl
    rcases l with - | ⟨c, cs⟩
    · exact ⟨fun _ _ _ => rfl, fun hs => by simp [sgrOnly] at hs⟩
    constructor
    · intro hs fg bg
      rcases cs with - | ⟨c2, rest⟩
      · simp [parseCore, stripCore, cellChars]
      by_cases h1 : c = '\x1b'
      · subst h1
        by_cases h2 : c2 = '['
        · subst h2
          have hs' : sgrOnly true rest = true := by simpa [sgrOnly] using hs
          have hrec := (ih rest (by simp at hl ⊢; omega)).2 hs' fg bg []
          simpa [parseCore, stripCore] using hrec
        · have hs' : sgrOnly false (c2 :: rest) = true := by
            simpa [sgrOnly, h2] using hs
          have hrec := (ih (c2 :: rest) (by simp at hl ⊢; omega)).1 hs' fg bg
          simp only [cellChars] at hrec
          simp [parseCore, stripCore, h2, cellChars, hrec]
      · have hs' : sgrOnly false (c2 :: rest) = true := by
          simpa [sgrOnly, h1] using hs
        have hrec := (ih (c2 :: rest) (by simp at hl ⊢; omega)).1 hs' fg bg
        simp only [cellChars] at hrec
        simp [parseCore, stripCore, h1, cellChars, hrec]
    · intro hs fg bg acc
      by_cases hlet : isAsciiLetter c
      · have hm : c = 'm' ∧ sgrOnly false cs = true := by
          have := hs
          simp only [sgrOnly, hlet, if_true, Bool.and_eq_true, beq_iff_eq] at this
          exact this
        obtain ⟨rfl, hs'⟩ := hm
        have hrec := (ih cs (by simp at hl ⊢; omega)).1 hs'
          (applyANSICodes acc.reverse fg bg).1 (applyANSICodes acc.reverse fg bg).2
        simpa [parseCore, stripCore, hlet] using hrec
      · have hne : c ≠ 'm' := by
          intro hq; exact hlet (by rw [hq]; decide)
        have hs' : sgrOnly true cs = true := by
          simpa [sgrOnly, hlet] using hs
        have hrec := (ih cs (by simp at hl ⊢; omega)).2 hs' fg bg (c :: acc)
        simpa [parseCore, stripCore, hlet, hne] using hrec

/-! ## Lemmas about the filter pipeline -/

theorem filterChunk_append (m : String → Bool → Bool) (keep : Bool)
    (lines : List String) (hasANSI : List Bool) :
    ∀ xs ys : List Nat,
      filterChunk m keep lines hasANSI (xs ++ ys) =
        ((filterChunk m keep lines hasANSI xs).1 ++ (filterChunk m keep lines hasANSI ys).1,
         (filterChunk m keep lines hasANSI xs).2.1 ++ (filterChunk m keep lines hasANSI ys).2.1,
         (filterChunk m keep lines hasANSI xs).2.2 ++ (filterChunk m keep lines hasANSI ys).2.2)
  | [], ys => by simp [filterChunk]
  | x :: xs, ys => by
    have ih := filterChunk_append m keep lines hasANSI xs ys
    by_cases hm : m (lines.getD x "") (hasANSI.getD x false) = keep
    · simp only [List.cons_append, filterChunk, List.append_eq, ih, if_pos hm]
    · simp only [List.cons_append, filterChunk, List.append_eq, ih, if_neg hm]

theorem filterChunk_eq (m : String → Bool → Bool) (keep : Bool)
    (lines : List String) (hasANSI : List Bool) :
    ∀ idxs : List Nat,
      filterChunk m keep lines hasANSI idxs =
        ((idxs.filter fun i => m (lines.getD i "") (hasANSI.getD i false) == keep).map
            (fun i => lines.getD i ""),
         (idxs.filter fun i => m (lines.getD i "") (hasANSI.getD i false) == keep).map
            (fun i => hasANSI.getD i false),
         (idxs.filter fun i => m (lines.getD i "") (hasANSI.getD i false) == keep).map
            Int.ofNat)
  | [] => by simp [filterChunk]
  | x :: xs => by
    have ih := filterChunk_eq m keep lines hasANSI xs
    by_cases hm : m (lines.getD x "") (hasANSI.getD x false) = keep
    · simp only [filterChunk, List.filter_cons, ih, beq_iff_eq, if_pos hm, List.map_cons]
      rfl
    · simp only [filterChunk, List.filter_cons, ih, beq_iff_eq, if_neg hm, List.map_cons]

theorem mergeChunks_eq (m : String → Bool → Bool) (keep : Bool)
    (lines : List String) (hasANSI : List Bool) (total chunkSize : Nat) :
    ∀ nw : Nat,
      mergeChunks m keep lines hasANSI total chunkSize nw =
        filterChunk m keep lines hasANSI (List.range' 0 (min (nw * chunkSize) total))
  | 0 => by simp [mergeChunks, filterChunk]
  | nw + 1 => by
    have ih := mergeChunks_eq m keep lines hasANSI total chunkSize nw
    by_cases hA : total ≤ nw * chunkSize
    · have h1 : min (nw * chunkSize) total = total := by omega
      have h2 : min (nw * chunkSize + chunkSize) total - nw * chunkSize = 0 := by omega
      have h3 : min ((nw + 1) * chunkSize) total = total := by
        have : nw * chunkSize ≤ (nw + 1) * chunkSize := by
          have := Nat.mul_le_mul_right chunkSize (Nat.le_succ nw); simpa using this
        omega
      simp [mergeChunks, chunkIdxs, ih, h1, h2, h3, filterChunk]
    · have h1 : min (nw * chunkSize) total = nw * chunkSize := by omega
      have happ := List.range'_append 0 (nw * chunkSize)
        (min (nw * chunkSize + chunkSize) total - nw * chunkSize) 1
      simp only [Nat.zero_add, Nat.one_mul] at happ
      have hsum : (min (nw * chunkSize + chunkSize) total - nw * chunkSize) +
          nw * chunkSize = min ((nw + 1) * chunkSize) total := by
        have : (nw + 1) * chunkSize = nw * chunkSize + chunkSize := by ring
        omega
      rw [hsum] at happ
      simp only [mergeChunks, chunkIdxs, ih, h1]
      rw [← happ, filterChunk_append]

theorem filterRun_eq_range (m : String → Bool → Bool) (keep : Bool)
    (lines : List String) (hasANSI : List Bool) :
    filterRun m keep lines hasANSI =
      filterChunk m keep lines hasANSI (List.range lines.length) := by
  unfold filterRun
  rw [mergeChunks_eq, List.range_eq_range']
  congr 1
  by_cases h8 : lines.length < 8
  · simp only [if_pos h8, Nat.one_mul, Nat.add_sub_cancel, Nat.div_one, Nat.min_self]
  · simp only [if_neg h8]
    have hd := Nat.div_add_mod (lines.length + 8 - 1) 8
    have hm := Nat.mod_lt (lines.length + 8 - 1) (show 0 < 8 by omega)
    have hge : lines.length ≤ 8 * ((lines.length + 8 - 1) / 8) := by omega
    rw [Nat.min_eq_right hge]

/-! ## Lemmas about the invalid-regex paths -/

theorem searchPred_error_eq_literal (compile : RegexCompiler) (hasANSI : List Bool)
    (query : String) (ignoreCase : Bool) (err : String)
    (he : compile (if ignoreCase then "(?i)" ++ query else query) = Except.error err) :
    searchPred compile hasANSI query true ignoreCase =
      searchPred compile hasANSI query false false := by
  funext i line
  simp [searchPred, he]

theorem Search_proj_of_pred_eq (compile : RegexCompiler) (lines : List String)
    (hasANSI : List Bool) (query : String) (startLine : Int) (backward : Bool)
    (iR iC iR' iC' : Bool)
    (hp : searchPred compile hasANSI query iR iC = searchPred compile hasANSI query iR' iC') :
    (SearchState.Search compile lines hasANSI query startLine backward iR iC).1.matchList
      = (SearchState.Search compile lines hasANSI query startLine backward iR' iC').1.matchList ∧
    (SearchState.Search compile lines hasANSI query startLine backward iR iC).1.current
      = (SearchState.Search compile lines hasANSI query startLine backward iR' iC').1.current ∧
    (SearchState.Search compile lines hasANSI query startLine backward iR iC).2
      = (SearchState.Search compile lines hasANSI query startLine backward iR' iC').2 := by
  simp only [SearchState.Search, hp]
  by_cases hemp : collectMatches (searchPred compile hasANSI query iR' iC') 0 lines = []
  · simp [hemp]
  · rw [if_neg hemp, if_neg hemp]
    by_cases hbwd : backward
    · rw [if_pos hbwd, if_pos hbwd]
      rcases hsel : selectBwd startLine
        (collectMatches (searchPred compile hasANSI query iR' iC') 0 lines) 0 with - | iv
      · exact ⟨rfl, rfl, rfl⟩
      · exact ⟨rfl, rfl, rfl⟩
    · rw [if_neg hbwd, if_neg hbwd]
      rcases hsel : selectFwd startLine
        (collectMatches (searchPred compile hasANSI query iR' iC') 0 lines) 0 with - | iv
      · exact ⟨rfl, rfl, rfl⟩
      · exact ⟨rfl, rfl, rfl⟩

/-! ## Lemmas about the expanded row count -/

theorem wrapRows_pos (width : Int) (hw : 0 < width) (l : String) :
    1 ≤ wrapRows width l := by
  unfold wrapRows
  split
  · exact le_refl 1
  · rename_i hne
    have hw' : 0 < width.toNat := by omega
    rw [Nat.one_le_div_iff hw']
    omega

theorem foldl_wrapRows (width : Int) :
    ∀ (ls : List String) (acc : Nat),
      ls.foldl (fun acc l =>
        if (parseANSIStr l).length = 0 then acc + 1
        else acc + ((parseANSIStr l).length + width.toNat - 1) / width.toNat) acc
      = acc + (ls.map (wrapRows width)).sum
  | [], acc => by simp
  | l :: ls, acc => by
    have ih := foldl_wrapRows width ls
    by_cases h : (parseANSIStr l).length = 0
    · simp only [List.foldl_cons, if_pos h, ih, List.map_cons, List.sum_cons,
        wrapRows, if_pos h]
      omega
    · simp only [List.foldl_cons, if_neg h, ih, List.map_cons, List.sum_cons,
        wrapRows, if_neg h]
      omega

/-! ## Lemmas about the merge pick loop -/

theorem beats_irrefl (p : fileStream) : ¬ beats p p := by
  unfold beats
  by_cases h : p.hasTime <;> simp_all

theorem beats_asymm (q s : fileStream) (h : beats q s) : ¬ beats s q := by
  unfold beats at *
  by_cases h1 : q.hasTime <;> by_cases h2 : s.hasTime <;> simp_all <;> omega

theorem beats_trans (a b c : fileStream) (h1 : beats a b) (h2 : beats b c) :
    beats a c := by
  unfold beats at *
  by_cases ha : a.hasTime <;> by_cases hb : b.hasTime <;> by_cases hc : c.hasTime <;>
    simp_all <;> omega

theorem beats_resolve (q p c : fileStream) (h1 : beats q p) (h2 : ¬ beats c p) :
    beats q c := by
  unfold beats at *
  by_cases hq : q.hasTime <;> by_cases hp : p.hasTime <;> by_cases hc : c.hasTime <;>
    simp_all <;> omega

theorem pickAux_cons_some (pi : Nat) (p s : fileStream) (i : Nat)
    (rest : List fileStream) :
    pickAux (some (pi, p)) i (s :: rest) =
      if s.exhausted then pickAux (some (pi, p)) (i + 1) rest
      else if beats s p then pickAux (some (i, s)) (i + 1) rest
      else pickAux (some (pi, p)) (i + 1) rest := by
  simp only [pickAux, beats]
  by_cases he : s.exhausted <;> by_cases h1 : s.hasTime <;> by_cases h2 : p.hasTime <;>
    by_cases h3 : s.currTime < p.currTime <;> simp_all

theorem pickAux_some_spec :
    ∀ (l : List fileStream) (i0 pi : Nat) (p : fileStream), pi < i0 →
      ∃ qi q, pickAux (some (pi, p)) i0 l = some (qi, q) ∧
        ((qi = pi ∧ q = p) ∨
          (∃ k, ∃ hk : k < l.length, qi = i0 + k ∧ q = l.get ⟨k, hk⟩ ∧
            q.exhausted = false ∧ beats q p)) ∧
        (∀ k, ∀ hk : k < l.length, (l.get ⟨k, hk⟩).exhausted = false →
          ¬ beats (l.get ⟨k, hk⟩) q) ∧
        (∀ k, ∀ hk : k < l.length, (l.get ⟨k, hk⟩).exhausted = false →
          i0 + k < qi → beats q (l.get ⟨k, hk⟩))
  | [], i0, pi, p, hpi =>
    ⟨pi, p, rfl, Or.inl ⟨rfl, rfl⟩, fun k hk => absurd hk (by simp),
      fun k hk => absurd hk (by simp)⟩
  | s :: rest, i0, pi, p, hpi => by
    rw [pickAux_cons_some]
    by_cases he : s.exhausted
    · rw [if_pos he]
      obtain ⟨qi, q, heq, hA, hB, hC⟩ :=
        pickAux_some_spec rest (i0 + 1) pi p (by omega)
      refine ⟨qi, q, heq, ?_, ?_, ?_⟩
      · rcases hA with h | ⟨k, hk, h1, h2, h3, h4⟩
        · exact Or.inl h
        · exact Or.inr ⟨k + 1, by simpa using hk, by omega, by simpa using h2, h3, h4⟩
      · intro k hk hex
        rcases k with - | k
        · simp at hex
          rw [hex] at he
          cases he
        · exact hB k (by simpa using hk) (by simpa using hex)
      · intro k hk hex hlt
        rcases k with - | k
        · simp at hex
          rw [hex] at he
          cases he
        · exact hC k (by simpa using hk) (by simpa using hex) (by omega)
    · rw [if_neg he]
      by_cases hbt : beats s p
      · rw [if_pos hbt]
        obtain ⟨qi, q, heq, hA, hB, hC⟩ :=
          pickAux_some_spec rest (i0 + 1) i0 s (by omega)
        refine ⟨qi, q, heq, ?_, ?_, ?_⟩
        · rcases hA with ⟨h1, h2⟩ | ⟨k, hk, h1, h2, h3, h4⟩
          · refine Or.inr ⟨0, by simp, by omega, by simpa using h2, ?_, ?_⟩
            · rw [h2]; simpa using he
            · rw [h2]; exact hbt
          · exact Or.inr ⟨k + 1, by simpa using hk, by omega, by simpa using h2,
              h3, beats_trans q s p h4 hbt⟩
        · intro k hk hex
          rcases k with - | k
          · simp only [List.get]
            rcases hA with ⟨h1, h2⟩ | ⟨k', hk', h1, h2, h3, h4⟩
            · rw [h2]; exact beats_irrefl s
            · exact beats_asymm q s h4
          · exact hB k (by simpa using hk) (by simpa using hex)
        · intro k hk hex hlt
          rcases k with - | k
          · simp only [List.get]
            rcases hA with ⟨h1, h2⟩ | ⟨k', hk', h1, h2, h3, h4⟩
            · omega
            · exact h4
          · exact hC k (by simpa using hk) (by simpa using hex) (by omega)
      · rw [if_neg hbt]
        obtain ⟨qi, q, heq, hA, hB, hC⟩ :=
          pickAux_some_spec rest (i0 + 1) pi p (by omega)
        refine ⟨qi, q, heq, ?_, ?_, ?_⟩
        · rcases hA with h | ⟨k, hk, h1, h2, h3, h4⟩
          · exact Or.inl h
          · exact Or.inr ⟨k + 1, by simpa using hk, by omega, by simpa using h2, h3, h4⟩
        · intro k hk hex
          rcases k with - | k
          · simp only [List.get]
            rcases hA with ⟨h1, h2⟩ | ⟨k', hk', h1, h2, h3, h4⟩
            · rw [h2]; exact hbt
            · intro hsq
              exact absurd (beats_trans s q p hsq h4) hbt
          · exact hB k (by simpa using hk) (by simpa using hex)
        · intro k hk hex hlt
          rcases k with - | k
          · simp only [List.get]
            rcases hA with ⟨h1, h2⟩ | ⟨k', hk', h1, h2, h3, h4⟩
            · omega
            · exact beats_resolve q p s h4 hbt
          · exact hC k (by simpa using hk) (by simpa using hex) (by omega)

theorem pickAux_none_spec :
    ∀ (l : List fileStream) (i0 : Nat),
      (pickAux none i0 l = none ∧
        ∀ k, ∀ hk : k < l.length, (l.get ⟨k, hk⟩).exhausted = true) ∨
      (∃ qi q, pickAux none i0 l = some (qi, q) ∧
        (∃ k, ∃ hk : k < l.length, qi = i0 + k ∧ q = l.get ⟨k, hk⟩ ∧
          q.exhausted = false) ∧
        (∀ k, ∀ hk : k < l.length, (l.get ⟨k, hk⟩).exhausted = false →
          ¬ beats (l.get ⟨k, hk⟩) q) ∧
        (∀ k, ∀ hk : k < l.length, (l.get ⟨k, hk⟩).exhausted = false →
          i0 + k < qi → beats q (l.get ⟨k, hk⟩)))
  | [], i0 => Or.inl ⟨rfl, fun k hk => absurd hk (by simp)⟩
  | s :: rest, i0 => by
    have hstep : pickAux none i0 (s :: rest) =
        if s.exhausted then pickAux none (i0 + 1) rest
        else pickAux (some (i0, s)) (i0 + 1) rest := by
      by_cases he : s.exhausted <;> simp [pickAux, he]
    by_cases he : s.exhausted
    · rw [hstep, if_pos he]
      rcases pickAux_none_spec rest (i0 + 1) with ⟨hn, hall⟩ | ⟨qi, q, heq, hE, hB, hC⟩
      · refine Or.inl ⟨hn, ?_⟩
        intro k hk
        rcases k with - | k
        · simpa using he
        · exact hall k (by simpa using hk)
      · refine Or.inr ⟨qi, q, heq, ?_, ?_, ?_⟩
        · obtain ⟨k, hk, h1, h2, h3⟩ := hE
          exact ⟨k + 1, by simpa using hk, by omega, by simpa using h2, h3⟩
        · intro k hk hex
          rcases k with - | k
          · simp at hex
            rw [hex] at he
            cases he
          · exact hB k (by simpa using hk) (by simpa using hex)
        · intro k hk hex hlt
          rcases k with - | k
          · simp at hex
            rw [hex] at he
            cases he
          · exact hC k (by simpa using hk) (by simpa using hex) (by omega)
    · rw [hstep, if_neg he]
      obtain ⟨qi, q, heq, hA, hB, hC⟩ :=
        pickAux_some_spec rest (i0 + 1) i0 s (by omega)
      refine Or.inr ⟨qi, q, heq, ?_, ?_, ?_⟩
      · rcases hA with ⟨h1, h2⟩ | ⟨k, hk, h1, h2, h3, h4⟩
        · refine ⟨0, by simp, by omega, by simpa using h2, ?_⟩
          rw [h2]; simpa using he
        · exact ⟨k + 1, by simpa using hk, by omega, by simpa using h2, h3⟩
      · intro k hk hex
        rcases k with - | k
        · simp only [List.get]
          rcases hA with ⟨h1, h2⟩ | ⟨k', hk', h1, h2, h3, h4⟩
          · rw [h2]; exact beats_irrefl s
          · exact beats_asymm q s h4
        · exact hB k (by simpa using hk) (by simpa using hex)
      · intro k hk hex hlt
        rcases k with - | k
        · simp only [List.get]
          rcases hA with ⟨h1, h2⟩ | ⟨k', hk', h1, h2, h3, h4⟩
          · omega
          · exact h4
        · exact hC k (by simpa using hk) (by simpa using hex) (by omega)

/-! ## Lemmas about the stack-navigation binary search -/

theorem sortSearchAux_spec (f : Nat → Bool) (n : Nat)
    (hmono : ∀ k1 k2, k1 ≤ k2 → k2 < n → f k1 = true → f k2 = true) :
    ∀ (fuel i j : Nat), i ≤ j → j ≤ n → j - i ≤ fuel →
      (∀ k, k < i → f k = false) →
      (∀ k, j ≤ k → k < n → f k = true) →
      i ≤ sortSearchAux f fuel i j ∧ sortSearchAux f fuel i j ≤ j ∧
      (∀ k, k < sortSearchAux f fuel i j → f k = false) ∧
      (∀ k, sortSearchAux f fuel i j ≤ k → k < n → f k = true) := by
  intro fuel
  induction fuel with
  | zero =>
    intro i j hij hjn hfuel hlo hhi
    have hje : i = j := by omega
    subst hje
    simp only [sortSearchAux]
    exact ⟨Nat.le_refl i, Nat.le_refl i, hlo, hhi⟩
  | succ fuel ih =>
    intro i j hij hjn hfuel hlo hhi
    by_cases hlt : i < j
    · have hdef : sortSearchAux f (fuel + 1) i j =
          if f ((i + j) / 2) then sortSearchAux f fuel i ((i + j) / 2)
          else sortSearchAux f fuel ((i + j) / 2 + 1) j := by
        simp only [sortSearchAux, if_pos hlt]
      cases hf : f ((i + j) / 2) with
      | false =>
        rw [hdef, if_neg (by simp [hf])]
        have hlo' : ∀ k, k < (i + j) / 2 + 1 → f k = false := by
          intro k hk
          cases hfk : f k with
          | false => rfl
          | true =>
            have hmid : f ((i + j) / 2) = true :=
              hmono k ((i + j) / 2) (by omega) (by omega) hfk
            rw [hf] at hmid
            cases hmid
        have hrec := ih ((i + j) / 2 + 1) j (by omega) hjn (by omega) hlo' hhi
        have h1 : i ≤ (i + j) / 2 + 1 := by omega
        exact ⟨Nat.le_trans h1 hrec.1, hrec.2.1, hrec.2.2.1, hrec.2.2.2⟩
      | true =>
        rw [hdef, if_pos hf]
        have hhi' : ∀ k, (i + j) / 2 ≤ k → k < n → f k = true := by
          intro k hk hkn
          exact hmono ((i + j) / 2) k hk hkn hf
        have hrec := ih i ((i + j) / 2) (by omega) (by omega) (by omega) hlo hhi'
        have h1 : (i + j) / 2 ≤ j := by omega
        exact ⟨hrec.1, Nat.le_trans hrec.2.1 h1, hrec.2.2.1, hrec.2.2.2⟩
    · have hje : i = j := by omega
      subst hje
      simp only [sortSearchAux, if_neg hlt]
      exact ⟨Nat.le_refl i, Nat.le_refl i, hlo, hhi⟩

theorem sortSearch_spec (n : Nat) (f : Nat → Bool)
    (hmono : ∀ k1 k2, k1 ≤ k2 → k2 < n → f k1 = true → f k2 = true) :
    sortSearch n f ≤ n ∧
    (∀ k, k < sortSearch n f → f k = false) ∧
    (∀ k, sortSearch n f ≤ k → k < n → f k = true) := by
  have h := sortSearchAux_spec f n hmono (n + 1) 0 n (Nat.zero_le n)
    (Nat.le_refl n) (by omega)
    (fun k hk => absurd hk (Nat.not_lt_zero k))
    (fun k hk hkn => absurd (Nat.lt_of_le_of_lt hk hkn) (Nat.lt_irrefl n))
  exact ⟨h.2.1, h.2.2.1, h.2.2.2⟩

theorem updateLast_getLastD (f : Viewer → Viewer) :
    ∀ (l : List Viewer), l ≠ [] → ∀ d : Viewer,
      (updateLast f l).getLastD d = f (l.getLastD d) := by
  intro l
  induction l with
  | nil => intro h; exact absurd rfl h
  | cons v rest ih =>
    intro _ d
    cases rest with
    | nil => rfl
    | cons w rest' =>
      have hstep : updateLast f (v :: w :: rest') = v :: updateLast f (w :: rest') := rfl
      rw [hstep, List.getLastD_cons, List.getLastD_cons]
      exact ih (by simp) v

theorem getD_mono_of_pairwise (l : List Int) (hs : l.Pairwise (· ≤ ·))
    (k1 k2 : Nat) (h12 : k1 ≤ k2) (h2 : k2 < l.length) :
    l.getD k1 0 ≤ l.getD k2 0 := by
  have h1 : k1 < l.length := Nat.lt_of_le_of_lt h12 h2
  rw [List.getD_eq_getElem l 0 h1, List.getD_eq_getElem l 0 h2]
  rcases Nat.lt_or_ge k1 k2 with hlt | hge
  · exact List.pairwise_iff_getElem.mp hs k1 k2 h1 h2 hlt
  · have hke : k1 = k2 := by omega
    subst hke
    exact le_refl _

theorem navReposition_spec (t : Int) (v : Viewer) :
    (navReposition t v).topLineOffset = 0 ∧
    (navReposition t v).lines = v.lines ∧
    (navReposition t v).originIndices = v.originIndices ∧
    (navReposition t v).topLine =
      (if 0 < v.originIndices.length then
        (if sortSearch v.originIndices.length
              (fun i => decide (t ≤ v.originIndices.getD i 0)) <
            v.originIndices.length then
          ((sortSearch v.originIndices.length
              (fun i => decide (t ≤ v.originIndices.getD i 0)) : Nat) : Int)
        else (v.originIndices.length : Int) - 1)
      else if (v.lines.length : Int) ≤ t then (v.lines.length : Int) - 1
      else t) := by
  by_cases h : 0 < v.originIndices.length
  · by_cases h2 : sortSearch v.originIndices.length
        (fun i => decide (t ≤ v.originIndices.getD i 0)) < v.originIndices.length
    · refine ⟨?_, ?_, ?_, ?_⟩
      · simp only [navReposition]; rw [if_pos h, if_pos h2]
      · simp only [navReposition]; rw [if_pos h, if_pos h2]
      · simp only [navReposition]; rw [if_pos h, if_pos h2]
      · simp only [navReposition]; rw [if_pos h, if_pos h, if_pos h2, if_pos h2]
    · refine ⟨?_, ?_, ?_, ?_⟩
      · simp only [navReposition]; rw [if_pos h, if_neg h2]
      · simp only [navReposition]; rw [if_pos h, if_neg h2]
      · simp only [navReposition]; rw [if_pos h, if_neg h2]
      · simp only [navReposition]; rw [if_pos h, if_pos h, if_neg h2, if_neg h2]
  · by_cases h3 : (v.lines.length : Int) ≤ t
    · refine ⟨?_, ?_, ?_, ?_⟩
      · simp only [navReposition, Viewer.LineCount]; rw [if_neg h, if_pos h3]
      · simp only [navReposition, Viewer.LineCount]; rw [if_neg h, if_pos h3]
      · simp only [navReposition, Viewer.LineCount]; rw [if_neg h, if_pos h3]
      · simp only [navReposition, Viewer.LineCount]
        rw [if_neg h, if_neg h, if_pos h3, if_pos h3]
    · refine ⟨?_, ?_, ?_, ?_⟩
      · simp only [navReposition, Viewer.LineCount]; rw [if_neg h, if_neg h3]
      · simp only [navReposition, Viewer.LineCount]; rw [if_neg h, if_neg h3]
      · simp only [navReposition, Viewer.LineCount]; rw [if_neg h, if_neg h3]
      · simp only [navReposition, Viewer.LineCount]
        rw [if_neg h, if_neg h, if_neg h3, if_neg h3]

end Sieve

-- sanity checks on concrete inputs
example : Sieve.stripANSIStr "prefix \x1b[31mred\x1b[0m text" = "prefix red text" := by decide
example : (Sieve.parseANSIStr "\x1b[31mred\x1b[0m").length = 3 := by decide
example : Sieve.cellChars (Sieve.parseANSIStr "\x1b[31mred\x1b[0m") = ['r', 'e', 'd'] := by decide
example : (Sieve.parseANSIStr "hello").length = 5 := by decide
example : Sieve.stripANSIStr "\x1b[A" = "" := by decide
example : Sieve.cellChars (Sieve.parseANSIStr "\x1b[A") = ['\x1b', '[', 'A'] := by decide
example : (Sieve.parseANSIStr "\x1b[31mred").map Sieve.ansiCell.fg = [2, 2, 2] := by decide
example : Sieve.isJSON "prefix: \x7b\"key\": \"value\"\x7d" = true := by decide
example : Sieve.isJSON "no json here" = false := by decide
example : Sieve.isJSON "\x7b" = false := by decide
example : Sieve.isJSON "{}" = true := by decide
example : Sieve.findJSONStart "prefix: \x7b\"key\": 1\x7d".data = 8 := by decide

/-- C9: `Viewer.GetLine` returns the empty string when the index is
negative or at least the number of lines, and the stored line at the
index otherwise; it is a total function, so no index can fault. -/
theorem GetLine_total_bounds (v : Sieve.Viewer) (idx : Int) :
    ((idx < 0 ∨ (v.lines.length : Int) ≤ idx) → v.GetLine idx = "") ∧
    (∀ (h₁ : 0 ≤ idx) (h₂ : idx < (v.lines.length : Int)),
      v.GetLine idx = v.lines.get ⟨idx.toNat, by omega⟩) := by
  constructor
  · intro h
    simp only [Sieve.Viewer.GetLine, if_pos h]
  · intro h₁ h₂
    have hni : ¬(idx < 0 ∨ (v.lines.length : Int) ≤ idx) := by omega
    simp only [Sieve.Viewer.GetLine, if_neg hni]
    exact List.getD_eq_getElem v.lines "" (by omega)

/-- C9 witness: concrete in-range and out-of-range reads. -/
theorem GetLine_total_bounds_witness :
    (Sieve.NewViewerFromLines ["alpha", "beta"]).GetLine 1 = "beta" ∧
    (Sieve.NewViewerFromLines ["alpha", "beta"]).GetLine 5 = "" ∧
    (Sieve.NewViewerFromLines ["alpha", "beta"]).GetLine (-1) = "" := by
  refine ⟨?_, ?_, ?_⟩
  · exact (GetLine_total_bounds (Sieve.NewViewerFromLines ["alpha", "beta"]) 1).2
      (by decide) (by decide)
  · exact (GetLine_total_bounds (Sieve.NewViewerFromLines ["alpha", "beta"]) 5).1
      (by decide)
  · exact (GetLine_total_bounds (Sieve.NewViewerFromLines ["alpha", "beta"]) (-1)).1
      (by decide)

/-- C10: the `'w'` key toggles `wordWrap` and resets both `leftCol` and
`topLineOffset` to 0, leaving every other viewer field unchanged; the
`'f'` key toggles `jsonPretty` and resets only `topLineOffset`, leaving
`leftCol` (and every other field) unchanged. -/
theorem toggle_wordWrap_jsonPretty_frame (v : Sieve.Viewer) :
    (v.toggleWordWrap.wordWrap = !v.wordWrap ∧
     v.toggleWordWrap.leftCol = 0 ∧
     v.toggleWordWrap.topLineOffset = 0 ∧
     v.toggleWordWrap.lines = v.lines ∧
     v.toggleWordWrap.hasANSI = v.hasANSI ∧
     v.toggleWordWrap.originIndices = v.originIndices ∧
     v.toggleWordWrap.loading = v.loading ∧
     v.toggleWordWrap.filename = v.filename ∧
     v.toggleWordWrap.jsonPretty = v.jsonPretty ∧
     v.toggleWordWrap.stickyLeft = v.stickyLeft ∧
     v.toggleWordWrap.topLine = v.topLine ∧
     v.toggleWordWrap.width = v.width ∧
     v.toggleWordWrap.height = v.height ∧
     v.toggleWordWrap.follow = v.follow) ∧
    (v.toggleJsonPretty.jsonPretty = !v.jsonPretty ∧
     v.toggleJsonPretty.topLineOffset = 0 ∧
     v.toggleJsonPretty.leftCol = v.leftCol ∧
     v.toggleJsonPretty.lines = v.lines ∧
     v.toggleJsonPretty.hasANSI = v.hasANSI ∧
     v.toggleJsonPretty.originIndices = v.originIndices ∧
     v.toggleJsonPretty.loading = v.loading ∧
     v.toggleJsonPretty.filename = v.filename ∧
     v.toggleJsonPretty.wordWrap = v.wordWrap ∧
     v.toggleJsonPretty.stickyLeft = v.stickyLeft ∧
     v.toggleJsonPretty.topLine = v.topLine ∧
     v.toggleJsonPretty.width = v.width ∧
     v.toggleJsonPretty.height = v.height ∧
     v.toggleJsonPretty.follow = v.follow) := by
  constructor <;> repeat (first | constructor | rfl)

/-- C1 (amended): `SearchState.Search` populates `matches` with exactly
the ascending indices of matching lines and selects: forward, the
smallest match index ≥ `start`; backward, the largest match index ≤
`start`; when `matches` is non-empty but every match lies strictly on
the other side of `start`, `Search` returns `-1` and sets `current` to
`len(matches) - 1` for a forward search and to `0` for a backward
search. -/
theorem Search_matches_selection (compile : Sieve.RegexCompiler) (lines : List String)
    (hasANSI : List Bool) (query : String) (startLine : Int)
    (backward isRegex ignoreCase : Bool) (st : Sieve.SearchState) (ret : Int)
    (h : Sieve.SearchState.Search compile lines hasANSI query startLine backward
      isRegex ignoreCase = (st, ret)) :
    st.matchList.Pairwise (· < ·) ∧
    (∀ j, j ∈ st.matchList ↔
      j < lines.length ∧
        Sieve.searchPred compile hasANSI query isRegex ignoreCase j (lines.getD j "") = true) ∧
    (backward = false →
      ((∃ v ∈ st.matchList, startLine ≤ (v : Int)) →
        ∃ v : Nat, ret = (v : Int) ∧ v ∈ st.matchList ∧ startLine ≤ (v : Int) ∧
          (∀ w ∈ st.matchList, startLine ≤ (w : Int) → v ≤ w) ∧
          0 ≤ st.current ∧ st.matchList.getD st.current.toNat 0 = v) ∧
      ((st.matchList ≠ [] ∧ ∀ v ∈ st.matchList, (v : Int) < startLine) →
        ret = -1 ∧ st.current = (st.matchList.length : Int) - 1)) ∧
    (backward = true →
      ((∃ v ∈ st.matchList, (v : Int) ≤ startLine) →
        ∃ v : Nat, ret = (v : Int) ∧ v ∈ st.matchList ∧ (v : Int) ≤ startLine ∧
          (∀ w ∈ st.matchList, (w : Int) ≤ startLine → w ≤ v) ∧
          0 ≤ st.current ∧ st.matchList.getD st.current.toNat 0 = v) ∧
      ((st.matchList ≠ [] ∧ ∀ v ∈ st.matchList, startLine < (v : Int)) →
        ret = -1 ∧ st.current = 0)) := by
  simp only [Sieve.SearchState.Search] at h
  set p := Sieve.searchPred compile hasANSI query isRegex ignoreCase with hp
  set ms := Sieve.collectMatches p 0 lines with hms
  have hpw : ms.Pairwise (· < ·) := Sieve.collectMatches_pairwise p lines 0
  have hpw' : ms.Pairwise (· ≤ ·) := hpw.imp le_of_lt
  have hmem : ∀ j, j ∈ ms ↔ j < lines.length ∧ p j (lines.getD j "") = true :=
    fun j => Sieve.collectMatches_mem p lines j
  by_cases hemp : ms = []
  · rw [if_pos hemp] at h
    injection h with h1 h2
    subst h1; subst h2
    refine ⟨hpw, hmem, ?_, ?_⟩
    · intro _
      constructor
      · rintro ⟨v, hv, -⟩
        rw [show Sieve.SearchState.matchList _ = ms from rfl, hemp] at hv
        cases hv
      · rintro ⟨hne, -⟩
        exact absurd hemp hne
    · intro _
      constructor
      · rintro ⟨v, hv, -⟩
        rw [show Sieve.SearchState.matchList _ = ms from rfl, hemp] at hv
        cases hv
      · rintro ⟨hne, -⟩
        exact absurd hemp hne
  · rw [if_neg hemp] at h
    by_cases hbwd : backward
    · rw [if_pos hbwd] at h
      rcases hsel : Sieve.selectBwd startLine ms 0 with - | ⟨i, v⟩
      · rw [hsel] at h
        injection h with h1 h2
        subst h1; subst h2
        have hall : ∀ w ∈ ms, startLine < (w : Int) :=
          (Sieve.selectBwd_none startLine ms 0).mp hsel
        refine ⟨hpw, hmem, ?_, ?_⟩
        · intro hbf; rw [hbf] at hbwd; cases hbwd
        · intro _
          refine ⟨?_, fun _ => ⟨rfl, rfl⟩⟩
          rintro ⟨w, hw, hws⟩
          exact absurd hws (by have := hall w hw; omega)
      · rw [hsel] at h
        injection h with h1 h2
        subst h1; subst h2
        obtain ⟨-, h2, h3, h4, h5, h6⟩ := Sieve.selectBwd_some startLine ms 0 i v hpw' hsel
        refine ⟨hpw, hmem, ?_, ?_⟩
        · intro hbf; rw [hbf] at hbwd; cases hbwd
        · intro _
          refine ⟨fun _ => ⟨v, rfl, h5, h4, h6, by positivity, ?_⟩, ?_⟩
          · simpa using h3
          · rintro ⟨-, hall⟩
            exact absurd h4 (by have := hall v h5; omega)
    · rw [if_neg hbwd] at h
      rcases hsel : Sieve.selectFwd startLine ms 0 with - | ⟨i, v⟩
      · rw [hsel] at h
        injection h with h1 h2
        subst h1; subst h2
        have hall : ∀ w ∈ ms, (w : Int) < startLine :=
          (Sieve.selectFwd_none startLine ms 0).mp hsel
        refine ⟨hpw, hmem, ?_, ?_⟩
        · intro _
          refine ⟨?_, fun _ => ⟨rfl, rfl⟩⟩
          rintro ⟨w, hw, hws⟩
          exact absurd hws (by have := hall w hw; omega)
        · intro hbt; rw [hbt] at hbwd; exact absurd rfl hbwd
      · rw [hsel] at h
        injection h with h1 h2
        subst h1; subst h2
        obtain ⟨-, h2, h3, h4, h5, h6⟩ := Sieve.selectFwd_some startLine ms 0 i v hpw' hsel
        refine ⟨hpw, hmem, ?_, ?_⟩
        · intro _
          refine ⟨fun _ => ⟨v, rfl, h5, h4, h6, by positivity, ?_⟩, ?_⟩
          · simpa using h3
          · rintro ⟨-, hall⟩
            exact absurd h4 (by have := hall v h5; omega)
        · intro hbt; rw [hbt] at hbwd; exact absurd rfl hbwd

/-- C1 witness: on `["apple","banana","cherry","apple pie"]` with query
`"apple"`, a forward search from 0 selects the smallest match ≥ 0, and a
forward search from 5 hits the fallback returning `-1`. -/
theorem Search_matches_selection_witness :
    (∃ v : Nat,
      (Sieve.SearchState.Search Sieve.rejectAllRegex
          ["apple", "banana", "cherry", "apple pie"] [false, false, false, false]
          "apple" 0 false false false).2 = (v : Int) ∧
      v ∈ (Sieve.SearchState.Search Sieve.rejectAllRegex
          ["apple", "banana", "cherry", "apple pie"] [false, false, false, false]
          "apple" 0 false false false).1.matchList ∧
      (0 : Int) ≤ (v : Int) ∧
      (∀ w ∈ (Sieve.SearchState.Search Sieve.rejectAllRegex
          ["apple", "banana", "cherry", "apple pie"] [false, false, false, false]
          "apple" 0 false false false).1.matchList, (0 : Int) ≤ (w : Int) → v ≤ w) ∧
      0 ≤ (Sieve.SearchState.Search Sieve.rejectAllRegex
          ["apple", "banana", "cherry", "apple pie"] [false, false, false, false]
          "apple" 0 false false false).1.current ∧
      (Sieve.SearchState.Search Sieve.rejectAllRegex
          ["apple", "banana", "cherry", "apple pie"] [false, false, false, false]
          "apple" 0 false false false).1.matchList.getD
        (Sieve.SearchState.Search Sieve.rejectAllRegex
          ["apple", "banana", "cherry", "apple pie"] [false, false, false, false]
          "apple" 0 false false false).1.current.toNat 0 = v) ∧
    ((Sieve.SearchState.Search Sieve.rejectAllRegex
        ["apple", "banana", "cherry", "apple pie"] [false, false, false, false]
        "apple" 5 false false false).2 = -1 ∧
     (Sieve.SearchState.Search Sieve.rejectAllRegex
        ["apple", "banana", "cherry", "apple pie"] [false, false, false, false]
        "apple" 5 false false false).1.current =
       ((Sieve.SearchState.Search Sieve.rejectAllRegex
          ["apple", "banana", "cherry", "apple pie"] [false, false, false, false]
          "apple" 5 false false false).1.matchList.length : Int) - 1) := by
  constructor
  · exact ((Search_matches_selection Sieve.rejectAllRegex
      ["apple", "banana", "cherry", "apple pie"] [false, false, false, false]
      "apple" 0 false false false _ _ rfl).2.2.1 rfl).1 (by decide)
  · exact ((Search_matches_selection Sieve.rejectAllRegex
      ["apple", "banana", "cherry", "apple pie"] [false, false, false, false]
      "apple" 5 false false false _ _ rfl).2.2.1 rfl).2 (by decide)

/-- C1 counterexample: a forward search for `"a"` from start index 2 on
`["a", "a", "b"]` finds matches `[0, 1]`, all strictly before the start,
yet sets `current` to `1` (= `len(matches) - 1`), not `0` as the claim
states. -/
theorem Search_forward_fallback_counterexample :
    ((Sieve.SearchState.Search Sieve.rejectAllRegex ["a", "a", "b"]
        [false, false, false] "a" 2 false false false).1.matchList ≠ [] ∧
     (∀ v ∈ (Sieve.SearchState.Search Sieve.rejectAllRegex ["a", "a", "b"]
        [false, false, false] "a" 2 false false false).1.matchList, (v : Int) < 2)) ∧
    (Sieve.SearchState.Search Sieve.rejectAllRegex ["a", "a", "b"]
        [false, false, false] "a" 2 false false false).1.current = 1 ∧
    (1 : Int) ≠ 0 := by
  refine ⟨⟨by decide, by decide⟩, by decide, by decide⟩

/-- C3 (amended): for every line in which each `ESC [` escape sequence
is terminated and has `'m'` as the first ASCII letter at or after its
parameter characters (the `sgrOnly` lines, i.e. only well-formed SGR
sequences), concatenating the `char` fields of the cells returned by
`parseANSI` yields exactly the string returned by `stripANSI`.  On other
lines the two differ: `stripANSI` removes any letter-terminated escape
and drops an unterminated one, while `parseANSI` consumes only
`'m'`-terminated sequences and emits anything else literally. -/
theorem parseANSI_concat_eq_stripANSI (s : String)
    (h : Sieve.sgrOnly false s.data = true) :
    String.mk (Sieve.cellChars (Sieve.parseANSIStr s)) = Sieve.stripANSIStr s := by
  unfold Sieve.parseANSIStr Sieve.parseANSI Sieve.stripANSIStr Sieve.stripANSI
  by_cases hc : s.data.contains Sieve.escChar
  · rw [if_pos hc]
    exact congrArg String.mk
      ((Sieve.parseCore_stripCore_agree s.data.length s.data le_rfl).1 h 0 0)
  · rw [if_neg hc]
    have hmem : Sieve.escChar ∉ s.data := by simpa using hc
    rw [Sieve.stripCore_of_no_esc s.data hmem]
    simp only [Sieve.cellChars, List.map_map]
    congr 1
    exact List.map_congr_left (fun _ _ => rfl) |>.trans (List.map_id _)

/-- C3 witness: a line with two well-formed SGR sequences. -/
theorem parseANSI_concat_eq_stripANSI_witness :
    String.mk (Sieve.cellChars (Sieve.parseANSIStr "\x1b[31mred\x1b[0m text")) =
      Sieve.stripANSIStr "\x1b[31mred\x1b[0m text" :=
  parseANSI_concat_eq_stripANSI "\x1b[31mred\x1b[0m text" (by decide)

/-- C3 counterexample: on the non-SGR escape `"\x1b[A"`, `stripANSI`
returns `""` (terminator is the letter `A`) but `parseANSI` emits the
three characters literally (no `'m'` terminator), so the round-trip
claimed for every line fails. -/
theorem parseANSI_concat_stripANSI_counterexample :
    String.mk (Sieve.cellChars (Sieve.parseANSIStr "\x1b[A")) ≠
      Sieve.stripANSIStr "\x1b[A" := by
  decide

/-- C4: for every parent snapshot and every keep/exclude filter whose
background task has completed, the pushed viewer's origin-index vector
is strictly ascending with every entry in `[0, parent_len)`, and its
lines are exactly the matching (`keep`) resp. non-matching (exclude)
parent lines in parent order. -/
theorem HandleFilter_completed_spec (compile : Sieve.RegexCompiler) (a : Sieve.App)
    (keep : Bool) (query : String) (isRegex ignoreCase : Bool)
    (m : String → Bool → Bool)
    (hm : Sieve.buildMatcher compile query isRegex ignoreCase = Except.ok m)
    (hq : query ≠ "") :
    ∃ nv : Sieve.Viewer,
      (Sieve.HandleFilter compile a keep query isRegex ignoreCase true).stack
        = a.stack ++ [nv] ∧
      nv.originIndices.Pairwise (· < ·) ∧
      (∀ o ∈ nv.originIndices,
        0 ≤ o ∧ o < ((Sieve.stackCurrent a.stack).lines.length : Int)) ∧
      nv.originIndices =
        ((List.range (Sieve.stackCurrent a.stack).lines.length).filter
          (fun i => m ((Sieve.stackCurrent a.stack).lines.getD i "")
            ((Sieve.stackCurrent a.stack).hasANSI.getD i false) == keep)).map
          Int.ofNat ∧
      nv.lines =
        ((List.range (Sieve.stackCurrent a.stack).lines.length).filter
          (fun i => m ((Sieve.stackCurrent a.stack).lines.getD i "")
            ((Sieve.stackCurrent a.stack).hasANSI.getD i false) == keep)).map
          (fun i => (Sieve.stackCurrent a.stack).lines.getD i "") := by
  set P := Sieve.stackCurrent a.stack with hP
  have hrun := (Sieve.filterRun_eq_range m keep P.lines P.hasANSI).trans
    (Sieve.filterChunk_eq m keep P.lines P.hasANSI (List.range P.lines.length))
  refine ⟨{ lines := (Sieve.filterRun m keep P.lines P.hasANSI).1,
            hasANSI := (Sieve.filterRun m keep P.lines P.hasANSI).2.1,
            originIndices := (Sieve.filterRun m keep P.lines P.hasANSI).2.2,
            loading := false, filename := P.filename,
            wordWrap := false, jsonPretty := false, stickyLeft := 0,
            topLine := Sieve.seedTopLine (Sieve.filterRun m keep P.lines P.hasANSI).2.2
              P.topLine,
            topLineOffset := 0, leftCol := 0, width := 0, height := 0,
            follow := false }, ?_, ?_, ?_, ?_, ?_⟩
  · simp only [Sieve.HandleFilter, hm]
    rw [if_pos ⟨trivial, hq⟩]
  · show ((Sieve.filterRun m keep P.lines P.hasANSI).2.2).Pairwise (· < ·)
    rw [hrun]
    refine List.pairwise_map.mpr ?_
    exact ((List.pairwise_lt_range _).filter _).imp (fun h => Int.ofNat_lt.mpr h)
  · show ∀ o ∈ (Sieve.filterRun m keep P.lines P.hasANSI).2.2,
      0 ≤ o ∧ o < (P.lines.length : Int)
    rw [hrun]
    intro o ho
    obtain ⟨i, hi, rfl⟩ := List.mem_map.mp ho
    have hr := List.mem_range.mp (List.mem_filter.mp hi).1
    have hic : ((i : Nat) : Int) < (P.lines.length : Int) := by exact_mod_cast hr
    exact ⟨Int.ofNat_nonneg i, hic⟩
  · show (Sieve.filterRun m keep P.lines P.hasANSI).2.2 = _
    rw [hrun]
  · show (Sieve.filterRun m keep P.lines P.hasANSI).1 = _
    rw [hrun]

/-- C4 witness: the keep-filter `"error"` on a concrete four-line
parent. -/
theorem HandleFilter_completed_spec_witness :
    ∃ nv : Sieve.Viewer,
      (Sieve.HandleFilter Sieve.rejectAllRegex
          (Sieve.demoApp ["error: failed", "info: success", "error: timeout", "debug: trace"])
          true "error" false false true).stack
        = (Sieve.demoApp
            ["error: failed", "info: success", "error: timeout", "debug: trace"]).stack
          ++ [nv] ∧
      nv.originIndices.Pairwise (· < ·) ∧
      (∀ o ∈ nv.originIndices,
        0 ≤ o ∧ o < ((Sieve.stackCurrent (Sieve.demoApp
          ["error: failed", "info: success", "error: timeout", "debug: trace"]).stack).lines.length : Int)) ∧
      nv.originIndices =
        ((List.range (Sieve.stackCurrent (Sieve.demoApp
            ["error: failed", "info: success", "error: timeout", "debug: trace"]).stack).lines.length).filter
          (fun i => Sieve.literalMatcher "error"
            ((Sieve.stackCurrent (Sieve.demoApp
              ["error: failed", "info: success", "error: timeout", "debug: trace"]).stack).lines.getD i "")
            ((Sieve.stackCurrent (Sieve.demoApp
              ["error: failed", "info: success", "error: timeout", "debug: trace"]).stack).hasANSI.getD i false) == true)).map
          Int.ofNat ∧
      nv.lines =
        ((List.range (Sieve.stackCurrent (Sieve.demoApp
            ["error: failed", "info: success", "error: timeout", "debug: trace"]).stack).lines.length).filter
          (fun i => Sieve.literalMatcher "error"
            ((Sieve.stackCurrent (Sieve.demoApp
              ["error: failed", "info: success", "error: timeout", "debug: trace"]).stack).lines.getD i "")
            ((Sieve.stackCurrent (Sieve.demoApp
              ["error: failed", "info: success", "error: timeout", "debug: trace"]).stack).hasANSI.getD i false) == true)).map
          (fun i => (Sieve.stackCurrent (Sieve.demoApp
            ["error: failed", "info: success", "error: timeout", "debug: trace"]).stack).lines.getD i "") :=
  HandleFilter_completed_spec Sieve.rejectAllRegex
    (Sieve.demoApp ["error: failed", "info: success", "error: timeout", "debug: trace"])
    true "error" false false (Sieve.literalMatcher "error") rfl (by decide)

/-- C7: if a filter pattern in regex mode fails to compile, no viewer is
pushed, the stack is unchanged and a status message is shown; if a
search pattern in regex mode fails to compile, the search behaves as a
literal (case-sensitive) search for the raw query: same matches, same
current index, same returned line. -/
theorem invalid_regex_filter_and_search :
    (∀ (compile : Sieve.RegexCompiler) (a : Sieve.App) (keep : Bool)
        (query : String) (ignoreCase : Bool) (err : String),
      compile (if ignoreCase then "(?i)" ++ query else query) = Except.error err →
      query ≠ "" →
      (Sieve.HandleFilter compile a keep query true ignoreCase true).stack = a.stack ∧
      (Sieve.HandleFilter compile a keep query true ignoreCase true).statusMessage
        = "Invalid regex: " ++ err) ∧
    (∀ (compile : Sieve.RegexCompiler) (lines : List String) (hasANSI : List Bool)
        (query : String) (startLine : Int) (backward ignoreCase : Bool) (err : String),
      compile (if ignoreCase then "(?i)" ++ query else query) = Except.error err →
      (Sieve.SearchState.Search compile lines hasANSI query startLine backward
          true ignoreCase).1.matchList
        = (Sieve.SearchState.Search compile lines hasANSI query startLine backward
          false false).1.matchList ∧
      (Sieve.SearchState.Search compile lines hasANSI query startLine backward
          true ignoreCase).1.current
        = (Sieve.SearchState.Search compile lines hasANSI query startLine backward
          false false).1.current ∧
      (Sieve.SearchState.Search compile lines hasANSI query startLine backward
          true ignoreCase).2
        = (Sieve.SearchState.Search compile lines hasANSI query startLine backward
          false false).2) := by
  constructor
  · intro compile a keep query ignoreCase err he hq
    have hb : Sieve.buildMatcher compile query true ignoreCase = Except.error err := by
      simp [Sieve.buildMatcher, he]
    constructor
    · simp only [Sieve.HandleFilter, hb]
      rw [if_pos ⟨trivial, hq⟩]
    · simp only [Sieve.HandleFilter, hb]
      rw [if_pos ⟨trivial, hq⟩]
  · intro compile lines hasANSI query startLine backward ignoreCase err he
    exact Sieve.Search_proj_of_pred_eq compile lines hasANSI query startLine backward
      true ignoreCase false false
      (Sieve.searchPred_error_eq_literal compile hasANSI query ignoreCase err he)

/-- C7 witness: with a compiler rejecting every pattern, a regex filter
for `"x"` leaves the stack of a one-viewer app unchanged and shows the
message, and a regex search behaves as the literal search. -/
theorem invalid_regex_filter_and_search_witness :
    ((Sieve.HandleFilter Sieve.rejectAllRegex (Sieve.demoApp ["alpha", "beta"])
        true "x" true false true).stack = (Sieve.demoApp ["alpha", "beta"]).stack ∧
     (Sieve.HandleFilter Sieve.rejectAllRegex (Sieve.demoApp ["alpha", "beta"])
        true "x" true false true).statusMessage = "Invalid regex: " ++ "external") ∧
    ((Sieve.SearchState.Search Sieve.rejectAllRegex ["alpha", "beta"] [false, false]
        "beta" 0 false true false).1.matchList
      = (Sieve.SearchState.Search Sieve.rejectAllRegex ["alpha", "beta"] [false, false]
        "beta" 0 false false false).1.matchList ∧
     (Sieve.SearchState.Search Sieve.rejectAllRegex ["alpha", "beta"] [false, false]
        "beta" 0 false true false).1.current
      = (Sieve.SearchState.Search Sieve.rejectAllRegex ["alpha", "beta"] [false, false]
        "beta" 0 false false false).1.current ∧
     (Sieve.SearchState.Search Sieve.rejectAllRegex ["alpha", "beta"] [false, false]
        "beta" 0 false true false).2
      = (Sieve.SearchState.Search Sieve.rejectAllRegex ["alpha", "beta"] [false, false]
        "beta" 0 false false false).2) :=
  ⟨invalid_regex_filter_and_search.1 Sieve.rejectAllRegex (Sieve.demoApp ["alpha", "beta"])
      true "x" false "external" rfl (by decide),
   invalid_regex_filter_and_search.2 Sieve.rejectAllRegex ["alpha", "beta"] [false, false]
      "beta" 0 false false "external" rfl⟩

/-- C5: the expanded-row count is always ≥ 1; it equals 1 when word
wrap and JSON pretty-print are both off, and when JSON mode is on, wrap
is off and the line is not JSON; with wrap on (and a positive width,
without which the per-row ceiling is meaningless and the code returns
1) it equals the sum over the line's physical lines of
`ceil(len(parseANSI(l)) / width)`, an empty physical line contributing
1.  (`fmtJSON` abstracts `formatJSON`, whose `json.Indent` core is an
external library; it always returns at least one line, hence `hfmt`.) -/
theorem getExpandedLineCount_spec (fmtJSON : String → List String)
    (hfmt : ∀ s, fmtJSON s ≠ []) (v : Sieve.Viewer) (lineIdx : Int) :
    1 ≤ Sieve.Viewer.getExpandedLineCount fmtJSON v lineIdx ∧
    (v.wordWrap = false → v.jsonPretty = false →
      Sieve.Viewer.getExpandedLineCount fmtJSON v lineIdx = 1) ∧
    (v.jsonPretty = true → v.wordWrap = false →
      Sieve.isJSON (v.GetLine lineIdx) = false →
      Sieve.Viewer.getExpandedLineCount fmtJSON v lineIdx = 1) ∧
    (v.wordWrap = true → 0 < v.width →
      Sieve.Viewer.getExpandedLineCount fmtJSON v lineIdx =
        ((Sieve.physicalLines fmtJSON v.jsonPretty (v.GetLine lineIdx)).map
          (Sieve.wrapRows v.width)).sum) := by
  refine ⟨?_, ?_, ?_, ?_⟩
  · simp only [Sieve.Viewer.getExpandedLineCount]
    split_ifs <;> omega
  · intro hww hjp
    simp [Sieve.Viewer.getExpandedLineCount, hww, hjp]
  · intro hjp hww hnj
    simp [Sieve.Viewer.getExpandedLineCount, hjp, hww, hnj]
  · intro hww hw
    have hwn : ¬ v.width ≤ 0 := by omega
    by_cases hrange : lineIdx < 0 ∨ ((v.LineCount : Nat) : Int) ≤ lineIdx
    · have hline : v.GetLine lineIdx = "" := by
        unfold Sieve.Viewer.GetLine
        rw [if_pos (by simpa [Sieve.Viewer.LineCount] using hrange)]
      simp [Sieve.Viewer.getExpandedLineCount, if_pos hrange, hline,
        Sieve.physicalLines, show Sieve.isJSON "" = false from rfl,
        Sieve.wrapRows, show Sieve.parseANSIStr "" = [] from rfl]
    · simp only [Sieve.Viewer.getExpandedLineCount, if_neg hrange, if_neg hwn, hww]
      rw [if_neg (show ¬¬True from by simp)]
      rw [Sieve.foldl_wrapRows v.width _ 0, Nat.zero_add]
      have hls :
          (if v.jsonPretty ∧ Sieve.isJSON (v.GetLine lineIdx)
            then fmtJSON (v.GetLine lineIdx) else [v.GetLine lineIdx])
          = Sieve.physicalLines fmtJSON v.jsonPretty (v.GetLine lineIdx) := rfl
      rw [hls]
      have hne : Sieve.physicalLines fmtJSON v.jsonPretty (v.GetLine lineIdx) ≠ [] := by
        unfold Sieve.physicalLines
        split
        · exact hfmt _
        · simp
      have hsum : 1 ≤ ((Sieve.physicalLines fmtJSON v.jsonPretty
          (v.GetLine lineIdx)).map (Sieve.wrapRows v.width)).sum := by
        rcases hL : Sieve.physicalLines fmtJSON v.jsonPretty (v.GetLine lineIdx)
          with - | ⟨x, rest⟩
        · exact absurd hL hne
        · simp only [List.map_cons, List.sum_cons]
          have := Sieve.wrapRows_pos v.width hw x
          omega
      rw [if_neg (by omega)]

/-- C5 witness: concrete viewers exercising every clause — a plain
viewer (count 1), a JSON-mode viewer on a non-JSON line (count 1), and
a wrap-mode viewer of width 2 on a five-character line (count = the
per-physical-line ceiling sum). -/
theorem getExpandedLineCount_spec_witness :
    1 ≤ Sieve.Viewer.getExpandedLineCount (fun s => [s])
      (Sieve.NewViewerFromLines ["hello"]) 0 ∧
    Sieve.Viewer.getExpandedLineCount (fun s => [s])
      (Sieve.NewViewerFromLines ["hello"]) 0 = 1 ∧
    Sieve.Viewer.getExpandedLineCount (fun s => [s]) Sieve.jsonDemoViewer 0 = 1 ∧
    Sieve.Viewer.getExpandedLineCount (fun s => [s]) Sieve.wrapDemoViewer 0 =
      ((Sieve.physicalLines (fun s => [s]) Sieve.wrapDemoViewer.jsonPretty
        (Sieve.wrapDemoViewer.GetLine 0)).map
        (Sieve.wrapRows Sieve.wrapDemoViewer.width)).sum :=
  ⟨(getExpandedLineCount_spec (fun s => [s]) (fun s => List.cons_ne_nil s [])
      (Sieve.NewViewerFromLines ["hello"]) 0).1,
   (getExpandedLineCount_spec (fun s => [s]) (fun s => List.cons_ne_nil s [])
      (Sieve.NewViewerFromLines ["hello"]) 0).2.1 rfl rfl,
   (getExpandedLineCount_spec (fun s => [s]) (fun s => List.cons_ne_nil s [])
      Sieve.jsonDemoViewer 0).2.2.1 rfl rfl (by decide),
   (getExpandedLineCount_spec (fun s => [s]) (fun s => List.cons_ne_nil s [])
      Sieve.wrapDemoViewer 0).2.2.2 rfl (by decide)⟩

/-- C8: at every merge step that emits a line, the emitted line comes
from a non-exhausted stream; if any non-exhausted stream's buffered
line lacks a timestamp, the picked stream lacks one and has the lowest
index among such streams; otherwise the picked stream has the smallest
buffered timestamp, with timestamp ties resolved to the lowest stream
index. -/
theorem mergePick_spec (streams : List Sieve.fileStream) (i : Nat)
    (s : Sieve.fileStream) (hpick : Sieve.pickStream streams = some (i, s)) :
    (∃ hi : i < streams.length, streams.get ⟨i, hi⟩ = s) ∧
    s.exhausted = false ∧
    Sieve.mergeEmit streams = some s.currLine ∧
    ((∃ j, ∃ hj : j < streams.length, (streams.get ⟨j, hj⟩).exhausted = false ∧
        (streams.get ⟨j, hj⟩).hasTime = false) →
      s.hasTime = false ∧
      ∀ j, ∀ hj : j < streams.length, (streams.get ⟨j, hj⟩).exhausted = false →
        (streams.get ⟨j, hj⟩).hasTime = false → i ≤ j) ∧
    ((∀ j, ∀ hj : j < streams.length, (streams.get ⟨j, hj⟩).exhausted = false →
        (streams.get ⟨j, hj⟩).hasTime = true) →
      s.hasTime = true ∧
      ∀ j, ∀ hj : j < streams.length, (streams.get ⟨j, hj⟩).exhausted = false →
        s.currTime ≤ (streams.get ⟨j, hj⟩).currTime ∧
        ((streams.get ⟨j, hj⟩).currTime = s.currTime → i ≤ j)) := by
  have hemit : Sieve.mergeEmit streams = some s.currLine := by
    simp [Sieve.mergeEmit, hpick]
  rcases Sieve.pickAux_none_spec streams 0 with ⟨hn, -⟩ | ⟨qi, q, heq, hE, hB, hC⟩
  · rw [Sieve.pickStream, hn] at hpick
    cases hpick
  · rw [Sieve.pickStream, heq] at hpick
    have hqs : qi = i ∧ q = s := by simpa [Prod.ext_iff] using hpick
    obtain ⟨rfl, rfl⟩ := hqs
    obtain ⟨k, hk, h1, h2, h3⟩ := hE
    have hik : qi = k := by omega
    subst hik
    have hget : streams.get ⟨qi, hk⟩ = q := h2.symm
    refine ⟨⟨hk, hget⟩, h3, hemit, ?_, ?_⟩
    · rintro ⟨j, hj, hex, hnt⟩
      have hqt : q.hasTime = false := by
        rcases hQ : q.hasTime with - | -
        · rfl
        · have hb : Sieve.beats (streams.get ⟨j, hj⟩) q := by
            left
            refine ⟨?_, hQ⟩
            intro hcontra
            rw [hnt] at hcontra
            cases hcontra
          exact absurd hb (hB j hj hex)
      refine ⟨hqt, ?_⟩
      intro j hj hex hnt
      by_contra hlt
      have hb := hC j hj hex (by omega)
      rcases hb with ⟨-, hb2⟩ | ⟨hb1, -, -⟩
      · rw [hnt] at hb2
        cases hb2
      · rw [hqt] at hb1
        cases hb1
    · intro hall
      have hqt : q.hasTime = true := by
        have := hall qi hk (by rw [hget]; exact h3)
        rwa [hget] at this
      refine ⟨hqt, ?_⟩
      intro j hj hex
      constructor
      · have hnb := hB j hj hex
        have hjt := hall j hj hex
        by_contra hlt
        exact hnb (Or.inr ⟨by simpa using hjt, by simpa using hqt, by omega⟩)
      · intro htie
        by_contra hlt
        have hb := hC j hj hex (by omega)
        rcases hb with ⟨hb1, -⟩ | ⟨-, -, hb3⟩
        · exact hb1 hqt
        · omega

/-- C8 witness: three streams, two timed (5 and 3) and one timeless —
the timeless stream (index 2) is picked and its line emitted. -/
theorem mergePick_spec_witness :
    (∃ hi : 2 < ([⟨"1a", 5, true, false⟩, ⟨"2b", 3, true, false⟩,
        ⟨"3c", 0, false, false⟩] : List Sieve.fileStream).length,
      ([⟨"1a", 5, true, false⟩, ⟨"2b", 3, true, false⟩,
        ⟨"3c", 0, false, false⟩] : List Sieve.fileStream).get ⟨2, hi⟩
        = ⟨"3c", 0, false, false⟩) ∧
    (⟨"3c", 0, false, false⟩ : Sieve.fileStream).exhausted = false ∧
    Sieve.mergeEmit [⟨"1a", 5, true, false⟩, ⟨"2b", 3, true, false⟩,
        ⟨"3c", 0, false, false⟩]
      = some (⟨"3c", 0, false, false⟩ : Sieve.fileStream).currLine ∧
    ((∃ j, ∃ hj : j < ([⟨"1a", 5, true, false⟩, ⟨"2b", 3, true, false⟩,
        ⟨"3c", 0, false, false⟩] : List Sieve.fileStream).length,
        (([⟨"1a", 5, true, false⟩, ⟨"2b", 3, true, false⟩,
          ⟨"3c", 0, false, false⟩] : List Sieve.fileStream).get ⟨j, hj⟩).exhausted = false ∧
        (([⟨"1a", 5, true, false⟩, ⟨"2b", 3, true, false⟩,
          ⟨"3c", 0, false, false⟩] : List Sieve.fileStream).get ⟨j, hj⟩).hasTime = false) →
      (⟨"3c", 0, false, false⟩ : Sieve.fileStream).hasTime = false ∧
      ∀ j, ∀ hj : j < ([⟨"1a", 5, true, false⟩, ⟨"2b", 3, true, false⟩,
          ⟨"3c", 0, false, false⟩] : List Sieve.fileStream).length,
        (([⟨"1a", 5, true, false⟩, ⟨"2b", 3, true, false⟩,
          ⟨"3c", 0, false, false⟩] : List Sieve.fileStream).get ⟨j, hj⟩).exhausted = false →
        (([⟨"1a", 5, true, false⟩, ⟨"2b", 3, true, false⟩,
          ⟨"3c", 0, false, false⟩] : List Sieve.fileStream).get ⟨j, hj⟩).hasTime = false →
        2 ≤ j) ∧
    ((∀ j, ∀ hj : j < ([⟨"1a", 5, true, false⟩, ⟨"2b", 3, true, false⟩,
          ⟨"3c", 0, false, false⟩] : List Sieve.fileStream).length,
        (([⟨"1a", 5, true, false⟩, ⟨"2b", 3, true, false⟩,
          ⟨"3c", 0, false, false⟩] : List Sieve.fileStream).get ⟨j, hj⟩).exhausted = false →
        (([⟨"1a", 5, true, false⟩, ⟨"2b", 3, true, false⟩,
          ⟨"3c", 0, false, false⟩] : List Sieve.fileStream).get ⟨j, hj⟩).hasTime = true) →
      (⟨"3c", 0, false, false⟩ : Sieve.fileStream).hasTime = true ∧
      ∀ j, ∀ hj : j < ([⟨"1a", 5, true, false⟩, ⟨"2b", 3, true, false⟩,
          ⟨"3c", 0, false, false⟩] : List Sieve.fileStream).length,
        (([⟨"1a", 5, true, false⟩, ⟨"2b", 3, true, false⟩,
          ⟨"3c", 0, false, false⟩] : List Sieve.fileStream).get ⟨j, hj⟩).exhausted = false →
        (⟨"3c", 0, false, false⟩ : Sieve.fileStream).currTime ≤
          (([⟨"1a", 5, true, false⟩, ⟨"2b", 3, true, false⟩,
            ⟨"3c", 0, false, false⟩] : List Sieve.fileStream).get ⟨j, hj⟩).currTime ∧
        ((([⟨"1a", 5, true, false⟩, ⟨"2b", 3, true, false⟩,
            ⟨"3c", 0, false, false⟩] : List Sieve.fileStream).get ⟨j, hj⟩).currTime =
          (⟨"3c", 0, false, false⟩ : Sieve.fileStream).currTime → 2 ≤ j)) :=
  mergePick_spec [⟨"1a", 5, true, false⟩, ⟨"2b", 3, true, false⟩,
    ⟨"3c", 0, false, false⟩] 2 ⟨"3c", 0, false, false⟩ rfl

/-- C6: the goto-line command on a viewer with an empty buffer sets
`topLine` to `-1` (the `maxLine` clamp runs after the zero clamp), so
the invariant `0 ≤ top_line` is violated by the code at this input. -/
theorem gotoLine_empty_buffer_underflow :
    (Sieve.HandleGotoLine (Sieve.NewViewerFromLines []) 1).topLine = -1 ∧
    ¬ (0 ≤ (Sieve.HandleGotoLine (Sieve.NewViewerFromLines []) 1).topLine) := by
  decide

/-- C2 (amended): popping or resetting a stack of more than one viewer
repositions the destination (new top) viewer.  The target is
`origin[top_line]` of the departing viewer when its origin indices are
non-empty and `top_line` is below their length, and `top_line` itself
otherwise (for a reset the target is further traced through every stack
level).  The destination keeps its lines and origin indices and gets
`top_line_offset = 0`.  When the destination has ascending origin
indices and some origin value is `>= target`, its new `top_line` is the
least index whose origin value is `>= target`; when no origin value is
`>= target`, it is `len - 1`; with no origin indices it is the target,
clamped above to `line count - 1`. -/
theorem HandleStackNav_spec (a : Sieve.App) (reset : Bool)
    (hlen : 1 < a.stack.length)
    (dest0 : Sieve.Viewer)
    (hdest0 : dest0 = Sieve.stackCurrent
      (if reset then a.stack.take 1 else a.stack.dropLast))
    (t : Int) (ht : t = Sieve.navTarget a reset)
    (dest : Sieve.Viewer)
    (hdest : dest = Sieve.stackCurrent (Sieve.HandleStackNav a reset).stack) :
    dest.topLineOffset = 0 ∧
    dest.lines = dest0.lines ∧
    dest.originIndices = dest0.originIndices ∧
    (dest0.originIndices.Pairwise (· ≤ ·) →
      (∃ k : Nat, k < dest0.originIndices.length ∧
        t ≤ dest0.originIndices.getD k 0) →
      ∃ k : Nat, dest.topLine = (k : Int) ∧ k < dest0.originIndices.length ∧
        t ≤ dest0.originIndices.getD k 0 ∧
        ∀ j : Nat, j < k → dest0.originIndices.getD j 0 < t) ∧
    (dest0.originIndices ≠ [] →
      (∀ k, k < dest0.originIndices.length → dest0.originIndices.getD k 0 < t) →
      dest.topLine = (dest0.originIndices.length : Int) - 1) ∧
    (dest0.originIndices = [] →
      dest.topLine =
        if (dest0.lines.length : Int) ≤ t then (dest0.lines.length : Int) - 1
        else t) := by
  have hpr : (if reset then Sieve.stackReset a.stack else Sieve.stackPop a.stack)
      = (if reset then a.stack.take 1 else a.stack.dropLast, true) := by
    cases reset
    · simp [Sieve.stackPop, Nat.not_le.mpr hlen]
    · simp [Sieve.stackReset, Nat.not_le.mpr hlen]
  have hnav : Sieve.HandleStackNav a reset =
      { a with
        stack := Sieve.updateLast
          (Sieve.navReposition (Sieve.navTarget a reset))
          (if reset then a.stack.take 1 else a.stack.dropLast),
        search := Sieve.SearchState.Clear } := by
    unfold Sieve.HandleStackNav
    rw [hpr]
    rfl
  have hbase : (if reset then a.stack.take 1 else a.stack.dropLast) ≠ [] := by
    cases reset
    · show a.stack.dropLast ≠ []
      have h0 : 0 < a.stack.dropLast.length := by
        rw [List.length_dropLast]; omega
      exact List.length_pos.mp h0
    · show a.stack.take 1 ≠ []
      have h0 : 0 < (a.stack.take 1).length := by
        rw [List.length_take]; omega
      exact List.length_pos.mp h0
  have hdest' : dest = Sieve.navReposition t dest0 := by
    rw [hdest, hnav, ht, hdest0]
    exact Sieve.updateLast_getLastD _ _ hbase _
  obtain ⟨ho, hl, hoi, htl⟩ := Sieve.navReposition_spec t dest0
  rw [hdest']
  refine ⟨ho, hl, hoi, ?_, ?_, ?_⟩
  · intro hsorted hex
    obtain ⟨k0, hk0n, hk0t⟩ := hex
    have hmono : ∀ k1 k2, k1 ≤ k2 → k2 < dest0.originIndices.length →
        (fun i => decide (t ≤ dest0.originIndices.getD i 0)) k1 = true →
        (fun i => decide (t ≤ dest0.originIndices.getD i 0)) k2 = true := by
      intro k1 k2 h12 h2 h1
      simp only [decide_eq_true_eq] at h1 ⊢
      exact le_trans h1
        (Sieve.getD_mono_of_pairwise dest0.originIndices hsorted k1 k2 h12 h2)
    have hss := Sieve.sortSearch_spec dest0.originIndices.length
      (fun i => decide (t ≤ dest0.originIndices.getD i 0)) hmono
    have hfk0 : (fun i => decide (t ≤ dest0.originIndices.getD i 0)) k0 = true := by
      simp only [decide_eq_true_eq]
      exact hk0t
    have hidx_le : Sieve.sortSearch dest0.originIndices.length
        (fun i => decide (t ≤ dest0.originIndices.getD i 0)) ≤ k0 := by
      by_contra hcon
      rw [hss.2.1 k0 (by omega)] at hfk0
      cases hfk0
    have hidx_lt : Sieve.sortSearch dest0.originIndices.length
        (fun i => decide (t ≤ dest0.originIndices.getD i 0)) <
        dest0.originIndices.length := Nat.lt_of_le_of_lt hidx_le hk0n
    refine ⟨Sieve.sortSearch dest0.originIndices.length
        (fun i => decide (t ≤ dest0.originIndices.getD i 0)), ?_, hidx_lt, ?_, ?_⟩
    · rw [htl, if_pos (by omega : 0 < dest0.originIndices.length), if_pos hidx_lt]
    · have hft := hss.2.2 _ (Nat.le_refl _) hidx_lt
      simpa only [decide_eq_true_eq] using hft
    · intro j hj
      have hfj := hss.2.1 j hj
      simp only [decide_eq_false_iff_not] at hfj
      omega
  · intro hne hall
    have hn : 0 < dest0.originIndices.length := List.length_pos.mpr hne
    have hmono : ∀ k1 k2, k1 ≤ k2 → k2 < dest0.originIndices.length →
        (fun i => decide (t ≤ dest0.originIndices.getD i 0)) k1 = true →
        (fun i => decide (t ≤ dest0.originIndices.getD i 0)) k2 = true := by
      intro k1 k2 h12 h2 h1
      exfalso
      simp only [decide_eq_true_eq] at h1
      have hk1 := hall k1 (Nat.lt_of_le_of_lt h12 h2)
      omega
    have hss := Sieve.sortSearch_spec dest0.originIndices.length
      (fun i => decide (t ≤ dest0.originIndices.getD i 0)) hmono
    have hidx_ge : ¬ (Sieve.sortSearch dest0.originIndices.length
        (fun i => decide (t ≤ dest0.originIndices.getD i 0)) <
        dest0.originIndices.length) := by
      intro hcon
      have hft := hss.2.2 _ (Nat.le_refl _) hcon
      simp only [decide_eq_true_eq] at hft
      have hk := hall _ hcon
      omega
    rw [htl, if_pos hn, if_neg hidx_ge]
  · intro hemp
    rw [htl, if_neg (by simp [hemp])]

/-- C2 witness: popping the two-viewer demo stack (child at line 0 with
origin index 4, root with ascending origin indices `[1, 3, 5]`)
satisfies the amended stack-navigation specification. -/
theorem HandleStackNav_spec_witness :
    1 < Sieve.navDemoApp.stack.length ∧
    ((Sieve.stackCurrent
        (Sieve.HandleStackNav Sieve.navDemoApp false).stack).topLineOffset = 0 ∧
     (Sieve.stackCurrent
        (Sieve.HandleStackNav Sieve.navDemoApp false).stack).lines =
       (Sieve.stackCurrent Sieve.navDemoApp.stack.dropLast).lines ∧
     (Sieve.stackCurrent
        (Sieve.HandleStackNav Sieve.navDemoApp false).stack).originIndices =
       (Sieve.stackCurrent Sieve.navDemoApp.stack.dropLast).originIndices ∧
     ((Sieve.stackCurrent
          Sieve.navDemoApp.stack.dropLast).originIndices.Pairwise (· ≤ ·) →
       (∃ k : Nat, k < (Sieve.stackCurrent
            Sieve.navDemoApp.stack.dropLast).originIndices.length ∧
         Sieve.navTarget Sieve.navDemoApp false ≤
           (Sieve.stackCurrent
             Sieve.navDemoApp.stack.dropLast).originIndices.getD k 0) →
       ∃ k : Nat, (Sieve.stackCurrent
           (Sieve.HandleStackNav Sieve.navDemoApp false).stack).topLine = (k : Int) ∧
         k < (Sieve.stackCurrent
           Sieve.navDemoApp.stack.dropLast).originIndices.length ∧
         Sieve.navTarget Sieve.navDemoApp false ≤
           (Sieve.stackCurrent
             Sieve.navDemoApp.stack.dropLast).originIndices.getD k 0 ∧
         ∀ j : Nat, j < k →
           (Sieve.stackCurrent
             Sieve.navDemoApp.stack.dropLast).originIndices.getD j 0 <
             Sieve.navTarget Sieve.navDemoApp false) ∧
     ((Sieve.stackCurrent Sieve.navDemoApp.stack.dropLast).originIndices ≠ [] →
       (∀ k, k < (Sieve.stackCurrent
            Sieve.navDemoApp.stack.dropLast).originIndices.length →
         (Sieve.stackCurrent
            Sieve.navDemoApp.stack.dropLast).originIndices.getD k 0 <
           Sieve.navTarget Sieve.navDemoApp false) →
       (Sieve.stackCurrent
          (Sieve.HandleStackNav Sieve.navDemoApp false).stack).topLine =
         ((Sieve.stackCurrent
            Sieve.navDemoApp.stack.dropLast).originIndices.length : Int) - 1) ∧
     ((Sieve.stackCurrent Sieve.navDemoApp.stack.dropLast).originIndices = [] →
       (Sieve.stackCurrent
          (Sieve.HandleStackNav Sieve.navDemoApp false).stack).topLine =
         if ((Sieve.stackCurrent
              Sieve.navDemoApp.stack.dropLast).lines.length : Int) ≤
             Sieve.navTarget Sieve.navDemoApp false then
           ((Sieve.stackCurrent
              Sieve.navDemoApp.stack.dropLast).lines.length : Int) - 1
         else Sieve.navTarget Sieve.navDemoApp false)) :=
  ⟨by decide,
   HandleStackNav_spec Sieve.navDemoApp false (by decide) _ rfl _ rfl _ rfl⟩

/-- C2 counterexample to the frozen wording: when the departing viewer's
`top_line` is out of range of its origin indices, the target falls back
to `top_line` itself, not to `origin[last]`.  Popping from a child with
origin indices `[5]` and `top_line = 1` leaves the 7-line root at line 1
(the claim predicts line 5, the least origin position at or past
`origin[last] = 5`). -/
theorem HandleStackNav_target_counterexample :
    (Sieve.stackCurrent (Sieve.HandleStackNav
        { stack := [Sieve.NewViewerFromLines
              ["l0", "l1", "l2", "l3", "l4", "l5", "l6"],
            { Sieve.NewViewerFromLines ["a", "b"] with
                originIndices := [5], topLine := 1 }],
          search := Sieve.SearchState.Clear, statusMessage := "" }
        false).stack).topLine = 1 ∧
    (Sieve.stackCurrent (Sieve.HandleStackNav
        { stack := [Sieve.NewViewerFromLines
              ["l0", "l1", "l2", "l3", "l4", "l5", "l6"],
            { Sieve.NewViewerFromLines ["a", "b"] with
                originIndices := [5], topLine := 1 }],
          search := Sieve.SearchState.Clear, statusMessage := "" }
        false).stack).topLine ≠ 5 := by
  constructor
  · decide
  · decide
